import Mathlib

/-!
Verification of the idempotent dispatch pipeline of the jde-to-datalake
repository.  The Lean definitions below are shallow embeddings of the
Python functions in `backend/utility.py`, `backend/jde_helper.py` and
`backend/dags/dag_bakery_system_to_jde.py`; each definition's doc comment
names the source function it embeds.
-/

namespace JdeToDatalake

/-- A model of Python/JSON values as they appear in request parameters,
payloads and cached responses: strings, integers, `None`/`null`,
dictionaries (insertion-ordered association lists with string keys, as in
Python) and lists.  Floats and booleans do not occur in the code paths
verified here. -/
inductive PyVal where
  | str (s : String)
  | int (n : Int)
  | null
  | dict (kvs : List (String × PyVal))
  | list (items : List PyVal)
deriving Repr

mutual

/-- Structural equality of modelled Python values. -/
def PyVal.beq : PyVal → PyVal → Bool
  | .str a, .str b => a == b
  | .int a, .int b => a == b
  | .null, .null => true
  | .dict a, .dict b => PyVal.beqKvs a b
  | .list a, .list b => PyVal.beqList a b
  | _, _ => false

/-- Structural equality of key-value lists. -/
def PyVal.beqKvs : List (String × PyVal) → List (String × PyVal) → Bool
  | [], [] => true
  | (k, v) :: r, (k', v') :: r' => k == k' && PyVal.beq v v' && PyVal.beqKvs r r'
  | _, _ => false

/-- Structural equality of value lists. -/
def PyVal.beqList : List PyVal → List PyVal → Bool
  | [], [] => true
  | v :: r, v' :: r' => PyVal.beq v v' && PyVal.beqList r r'
  | _, _ => false

end

theorem PyVal.beq_iff_eq : ∀ a b : PyVal, PyVal.beq a b = true ↔ a = b := by
  suffices main : ∀ n : Nat,
      (∀ a b : PyVal, sizeOf a ≤ n → (PyVal.beq a b = true ↔ a = b)) ∧
      (∀ l1 l2 : List (String × PyVal), sizeOf l1 ≤ n →
        (PyVal.beqKvs l1 l2 = true ↔ l1 = l2)) ∧
      (∀ l1 l2 : List PyVal, sizeOf l1 ≤ n →
        (PyVal.beqList l1 l2 = true ↔ l1 = l2)) by
    intro a b
    exact (main (sizeOf a)).1 a b le_rfl
  intro n
  induction n with
  | zero =>
    refine ⟨?_, ?_, ?_⟩
    · intro a b h; cases a <;> simp at h
    · intro l1 l2 h; cases l1 <;> simp at h
    · intro l1 l2 h; cases l1 <;> simp at h
  | succ n ih =>
    obtain ⟨ihV, ihK, ihL⟩ := ih
    refine ⟨?_, ?_, ?_⟩
    · intro a b h
      cases a <;> cases b <;> try simp [PyVal.beq]
      case dict.dict k1 k2 =>
        have hk : sizeOf k1 ≤ n := by simp at h; omega
        simp [PyVal.beq, ihK k1 k2 hk]
      case list.list l1 l2 =>
        have hl : sizeOf l1 ≤ n := by simp at h; omega
        simp [PyVal.beq, ihL l1 l2 hl]
    · intro l1 l2 h
      match l1, l2 with
      | [], [] => simp [PyVal.beqKvs]
      | [], _ :: _ => simp [PyVal.beqKvs]
      | _ :: _, [] => simp [PyVal.beqKvs]
      | (k, v) :: r, (k', v') :: r' =>
        have hv : sizeOf v ≤ n := by simp at h; omega
        have hr : sizeOf r ≤ n := by simp at h; omega
        simp [PyVal.beqKvs, ihV v v' hv, ihK r r' hr, and_assoc]
    · intro l1 l2 h
      match l1, l2 with
      | [], [] => simp [PyVal.beqList]
      | [], _ :: _ => simp [PyVal.beqList]
      | _ :: _, [] => simp [PyVal.beqList]
      | v :: r, v' :: r' =>
        have hv : sizeOf v ≤ n := by simp at h; omega
        have hr : sizeOf r ≤ n := by simp at h; omega
        simp [PyVal.beqList, ihV v v' hv, ihL r r' hr]

instance : BEq PyVal := ⟨PyVal.beq⟩

instance : DecidableEq PyVal := fun a b =>
  decidable_of_iff (PyVal.beq a b = true) (PyVal.beq_iff_eq a b)

/-- Lookup in a Python dictionary modelled as an association list:
`d.get(k)` returns the value of the first (hence, with unique keys, the
only) entry with key `k`. -/
def lookupKV (kvs : List (String × PyVal)) (k : String) : Option PyVal :=
  match kvs.find? (fun kv => kv.1 == k) with
  | some kv => some kv.2
  | none => none

/-- The keys of a dictionary, in insertion order. -/
def dictKeys (kvs : List (String × PyVal)) : List String :=
  kvs.map Prod.fst

namespace Quantity

/-- Python's `str.rstrip(c)` for a single strip character: removes every
trailing occurrence of `c`. -/
def rstripChar (c : Char) (l : List Char) : List Char :=
  (l.reverse.dropWhile (fun x => x == c)).reverse

/-- A parsed plain decimal literal: sign, integer digits, fraction digits.
`Decimal(str(value))` in `normalize_quantity_for_transaction_id` accepts
exactly such literals on the inputs exercised here (exponent notation and
special values take the function's fallback path and are outside this
model's parsed domain). -/
structure DecLit where
  neg : Bool
  intDigits : List Char
  fracDigits : List Char
deriving DecidableEq, Repr

/-- Parse a plain decimal literal (optional sign, digits, at most one
point, at least one digit overall), mirroring the grammar accepted by
`decimal.Decimal` for plain fixed-point literals. -/
def parseDec (s : String) : Option DecLit :=
  let l := s.data
  let (neg, rest) :=
    match l with
    | '-' :: r => (true, r)
    | '+' :: r => (false, r)
    | r => (false, r)
  let intPart := rest.takeWhile (fun c => c.isDigit)
  let afterInt := rest.dropWhile (fun c => c.isDigit)
  match afterInt with
  | [] =>
      if intPart.isEmpty then none
      else some ⟨neg, intPart, []⟩
  | '.' :: fracPart =>
      if fracPart.all (fun c => c.isDigit) ∧ ¬ (intPart.isEmpty ∧ fracPart.isEmpty) then
        some ⟨neg, intPart, fracPart⟩
      else none
  | _ => none

/-- Numeric value of a digit string. -/
def digitsVal (l : List Char) : Nat :=
  l.foldl (fun acc c => acc * 10 + (c.toNat - '0'.toNat)) 0

/-- Position of the digits after the ninth fraction digit relative to a
half unit in the last (ninth) kept place: `gt` above one half, `eq`
exactly one half, `lt` below (this includes no digits at all). -/
def cmpHalf : List Char → Ordering
  | [] => .lt
  | c :: rest =>
      if c.toNat > '5'.toNat then .gt
      else if c.toNat < '5'.toNat then .lt
      else if rest.any (fun d => d ≠ '0') then .gt
      else .eq

/-- The quantity scaled to an integer count of 10⁻⁹ units, rounded to
nearest with ties to even.  This models the composition
`f"{float(Decimal(str(q))):.9f}"` in `normalize_quantity_for_transaction_id`:
`%.9f` rounds the double to nine decimal places half-to-even; for inputs
whose decimal value is not within the double's representation error of a
halfway point this equals exact half-even rounding of the decimal itself,
which is what is defined here. -/
def scaled9 (d : DecLit) : Nat :=
  let frac9 := (d.fracDigits.take 9) ++ List.replicate (9 - d.fracDigits.length) '0'
  let base := digitsVal d.intDigits * 1000000000 + digitsVal frac9
  match cmpHalf (d.fracDigits.drop 9) with
  | .gt => base + 1
  | .lt => base
  | .eq => if base % 2 = 0 then base else base + 1

/-- Digits of `n` padded on the left with zeros to width nine (the
fraction digits printed by `%.9f`). -/
def padFrac9 (n : Nat) : List Char :=
  let ds := Nat.toDigits 10 n
  List.replicate (9 - ds.length) '0' ++ ds

/-- normalize_quantity_for_transaction_id (backend/utility.py): renders the
quantity to a fixed nine-decimal string via `%.9f`, then strips trailing
zeros and a trailing decimal point; on unparsable input it falls back to
the input's string form. -/
def normalize_quantity_for_transaction_id (s : String) : String :=
  match parseDec s with
  | none => s
  | some d =>
      let n := scaled9 d
      let intPart := n / 1000000000
      let fracPart := n % 1000000000
      let rendered := (Nat.toDigits 10 intPart) ++ ('.' :: padFrac9 fracPart)
      let stripped := rstripChar '.' (rstripChar '0' rendered)
      String.mk (if d.neg then '-' :: stripped else stripped)

/-- unique_transaction_id construction in parse_bakery_system_json
(dag_bakery_system_to_jde.py line 190): the ingredient name, lot number,
vessel code and normalized quantity joined with underscores. -/
def derive (subjectName lotLabel locationCode rawQuantity : String) : String :=
  subjectName ++ "_" ++ lotLabel ++ "_" ++ locationCode ++ "_" ++
    normalize_quantity_for_transaction_id rawQuantity

end Quantity

namespace Retry

/-- Outcome of one HTTP request as seen by retry_request: either a
transport-level exception (`requests.exceptions.RequestException`, e.g.
timeout or connection error), or a response with a status code, the parsed
JSON body (`none` when the body is not valid JSON) and the raw text. -/
inductive RResult where
  | exn
  | resp (status : Nat) (body : Option PyVal) (text : String)
deriving Repr

/-- The 429/423 branch of retry_request (backend/utility.py lines 382-397):
`json.loads(response.text)` then
`parsed_response.get("metadata", {}).get("wait", 10)`, sleeping `wait` when
positive and 10 seconds otherwise.  Returns the slept duration when the
branch reaches the recursive retry; returns `none` when the branch raises
instead (an `AttributeError` from calling `.get` on a non-dict, or a
`TypeError` from comparing a non-integer hint with 0) so that the
function's final catch-all turns the whole call into `None`. -/
def rlWait : Option PyVal → Option Int
  | Option.none => some 10
  | some (.dict kvs) =>
      match lookupKV kvs "metadata" with
      | Option.none => some 10
      | some (.dict mkvs) =>
          match lookupKV mkvs "wait" with
          | Option.none => some 10
          | some (.int w) => some (if 0 < w then w else 10)
          | some _ => Option.none
      | some _ => Option.none
  | some _ => Option.none

/-- retry_request (backend/utility.py lines 337-425).  `transport i` is the
outcome of the i-th HTTP request issued for this logical call (requests.get
/ post / put / delete are abstracted behind it; the HTTP method only
selects which of them is used).  On 200/201 the parsed JSON is returned,
except that an empty-list body and an unparsable body both yield `None`.
On 429/423 the function sleeps and calls itself with the same arguments —
there is no retry counter, so the recursion is bounded only by the
interpreter's recursion limit, modelled by `fuel`; when the limit is hit,
the `RecursionError` is caught by the function's catch-all
`except Exception` and surfaces as `None` (the `fuel = 0` case).  On any
other status the function returns `None` (for 400 it first raises an
exception embedding the body's `msg`, but that exception is caught by the
same catch-all).  On a transport exception it returns `None` with no
retry.  The second component counts the HTTP requests issued. -/
def retry_request_aux : Nat → (Nat → RResult) → Nat → Option PyVal × Nat
  | 0, _, _ => (Option.none, 0)
  | fuel + 1, transport, i =>
      match transport i with
      | .exn => (Option.none, 1)
      | .resp status body _text =>
          if status = 200 ∨ status = 201 then
            match body with
            | Option.none => (Option.none, 1)
            | some (.list []) => (Option.none, 1)
            | some v => (some v, 1)
          else if status = 429 ∨ status = 423 then
            match rlWait body with
            | some _w =>
                let r := retry_request_aux fuel transport (i + 1)
                (r.1, r.2 + 1)
            | Option.none => (Option.none, 1)
          else (Option.none, 1)

/-- retry_request entry point: starts with the first request. -/
def retry_request (fuel : Nat) (transport : Nat → RResult) : Option PyVal × Nat :=
  retry_request_aux fuel transport 0

/-- A transport whose first attempt fails at the transport level and whose
later attempts would succeed: exercises the transient-failure scenario. -/
def transientFailTransport : Nat → RResult := fun n =>
  if n = 0 then .exn else .resp 200 (some (.int 5)) ""

/-- A transport that always answers 400 with a JSON body carrying a
validation message, the duplicate-value scenario of the spec. -/
def duplicate400Transport : Nat → RResult := fun _ =>
  .resp 400 (some (.dict [("msg", .str "duplicate value")])) "dup"

end Retry

/-- Python `str.startswith`: the argument is a prefix of the string. -/
def pyStartsWith (s pre : String) : Bool :=
  s.data.take pre.data.length == pre.data

/-- Python `str.strip()`: removes leading and trailing whitespace. -/
def pyStrip (s : String) : String :=
  let wsp : Char → Bool := fun c => c == ' ' || c == '\t' || c == '\n' || c == '\r'
  String.mk (((s.data.dropWhile wsp).reverse.dropWhile wsp).reverse)

/-- Python slicing `s[:n]`: the first `n` characters. -/
def pyTake (s : String) (n : Nat) : String :=
  String.mk (s.data.take n)

namespace Ledger

/-- A row of the `ingredient_submitted_status` table, the dispatch ledger
(columns as inserted by post_data_to_jde; dispatch_single_batch_to_jde
inserts the same columns except `vessel_id`, which it leaves at the column
default, modelled as the empty string). -/
structure Row where
  action_id : String
  ingredient_id : String
  lot_id : String
  vessel_id : String
  vessel_code : String
  ingredient_name : String
  addition_unit : String
  status_text : String
  status : String
  unique_transaction_id : String
deriving DecidableEq, Repr

/-- The ledger upsert issued by both dispatch call sites:
`INSERT ... ON CONFLICT (unique_transaction_id) DO UPDATE SET
status_text = EXCLUDED.status_text, status = ...`.  The table has a
uniqueness constraint on `unique_transaction_id`; on conflict only
`status_text` and `status` are overwritten, every other column keeps its
originally inserted value. -/
def upsert (L : List Row) (r : Row) : List Row :=
  if L.any (fun x => x.unique_transaction_id == r.unique_transaction_id) then
    L.map (fun x =>
      if x.unique_transaction_id == r.unique_transaction_id then
        { x with status_text := r.status_text, status := r.status }
      else x)
  else L ++ [r]

/-- `SELECT status FROM ingredient_submitted_status WHERE
unique_transaction_id = %s`: the status of the (at most one) row with the
given identity. -/
def statusOf (L : List Row) (uid : String) : Option String :=
  match L.find? (fun x => x.unique_transaction_id == uid) with
  | some r => some r.status
  | none => none

/-- After an upsert, the row for the written identity carries the written
status. -/
theorem statusOf_upsert (L : List Row) (r : Row) :
    statusOf (upsert L r) r.unique_transaction_id = some r.status := by
  induction L with
  | nil => simp [upsert, statusOf]
  | cons x xs ih =>
    by_cases hx : x.unique_transaction_id = r.unique_transaction_id
    · simp [upsert, statusOf, hx, List.find?]
    · have hxb : (x.unique_transaction_id == r.unique_transaction_id) = false := by
        simp [hx]
      by_cases hxs : xs.any (fun y => y.unique_transaction_id == r.unique_transaction_id)
      · have h1 : upsert (x :: xs) r =
            x :: xs.map (fun y =>
              if y.unique_transaction_id == r.unique_transaction_id then
                { y with status_text := r.status_text, status := r.status }
              else y) := by
          simp [upsert, List.any_cons, hxb, hxs]
          intro h
          exact absurd h hx
        have h2 : upsert xs r =
            xs.map (fun y =>
              if y.unique_transaction_id == r.unique_transaction_id then
                { y with status_text := r.status_text, status := r.status }
              else y) := by
          simp [upsert, hxs]
        rw [h1, statusOf, List.find?]
        rw [hxb]
        rw [← h2, ← statusOf]
        exact ih
      · have h1 : upsert (x :: xs) r = x :: (xs ++ [r]) := by
          simp [upsert, List.any_cons, hxb, hxs]
        have h2 : upsert xs r = xs ++ [r] := by
          simp [upsert, hxs]
        rw [h1, statusOf, List.find?]
        rw [hxb]
        rw [← h2, ← statusOf]
        exact ih

end Ledger

namespace Pipeline

/-- A JSON quantity value as it occurs in `change_value`/`quantity`
fields: a number (JSON numbers here are decimals, held exactly as a
rational), a string, or null. -/
inductive Qty where
  | num (q : ℚ)
  | str (s : String)
  | null
deriving DecidableEq, Repr

/-- Python `==` between such a value and the number 0 (or 0.0): true only
for numeric zero; strings and None are never `==` a number. -/
def qtyEqZero : Qty → Bool
  | .num q => q == 0
  | _ => false

/-- The zero-or-null screen used by parse_bakery_system_json (line 178)
and dispatch_single_batch_to_jde (line 1080):
`v is None or v == 0 or (isinstance(v, str) and v.strip() in ['0', '', '0.0'])`. -/
def isZeroOrNullQty : Qty → Bool
  | .null => true
  | .num q => q == 0
  | .str s => pyStrip s == "0" || pyStrip s == "" || pyStrip s == "0.0"

/-- Python truthiness of a quantity value, as tested by the
required-fields check `not batch_data.get(field)`: 0, empty string and
None are falsy. -/
def qtyFalsy : Qty → Bool
  | .null => true
  | .num q => q == 0
  | .str s => s == ""

/-- Digits of `n` padded on the left with zeros to width `w`. -/
def padDigits (w : Nat) (n : Nat) : List Char :=
  let ds := Nat.toDigits 10 n
  List.replicate (w - ds.length) '0' ++ ds

/-- Python `str()` of a numeric quantity, for the decimal values that flow
through this pipeline (numbers with at most nine fractional digits):
renders the shortest decimal expansion, with `.0` appended to integers as
`str` does for floats.  (For a quantity that arrived as a JSON integer,
Python would render it without the `.0`; the two forms parse to the same
`Decimal`, so the normalized identity below is unaffected.) -/
def decStrOfRat (q : ℚ) : String :=
  let sgn := if q < 0 then "-" else ""
  let n := q.num.natAbs
  let d := q.den
  match (List.range 10).find? (fun e => 10 ^ e % d == 0) with
  | some e =>
      if e = 0 then sgn ++ String.mk (Nat.toDigits 10 n) ++ ".0"
      else
        let scaled := n * (10 ^ e / d)
        let ip := scaled / 10 ^ e
        let fp := scaled % 10 ^ e
        sgn ++ String.mk (Nat.toDigits 10 ip) ++ "." ++ String.mk (padDigits e fp)
  | none => sgn ++ String.mk (Nat.toDigits 10 n) ++ "/" ++ String.mk (Nat.toDigits 10 d)

/-- Python `str()` of a quantity value (the argument of
`Decimal(str(quantity_value))` in the normalization helpers). -/
def qtyStr : Qty → String
  | .str s => s
  | .null => "None"
  | .num q => decStrOfRat q

/-- Exact value of a parsed decimal literal. -/
def decLitVal (d : Quantity.DecLit) : ℚ :=
  let mag : ℚ := (Quantity.digitsVal d.intDigits : ℚ) +
    (Quantity.digitsVal d.fracDigits : ℚ) / ((10 : ℚ) ^ d.fracDigits.length)
  if d.neg then -mag else mag

/-- Rounding half-up (away from zero on ties, as `decimal.ROUND_HALF_UP`)
at nine decimal places. -/
def ratRound9HalfUp (q : ℚ) : ℚ :=
  if 0 ≤ q then (⌊q * 1000000000 + 1 / 2⌋ : ℚ) / 1000000000
  else -((⌊-q * 1000000000 + 1 / 2⌋ : ℚ) / 1000000000)

/-- preserve_quantity_precision (backend/utility.py lines 776-807):
`Decimal(str(v)).quantize(10^-9, ROUND_HALF_UP)` converted back to float;
on unparsable input it falls back to `float(v)` and ultimately 0.0. -/
def preserve_quantity_precision : Qty → ℚ
  | .num q => ratRound9HalfUp q
  | .str s =>
      match Quantity.parseDec s with
      | some d => ratRound9HalfUp (decLitVal d)
      | Option.none => 0
  | .null => 0

/-- One flattened entry produced by the additions loop of
parse_bakery_system_json (the fields the dispatch step consumes). -/
structure ParsedEntry where
  ingredient_id : String
  ingredient_name : String
  change_value : ℚ
  unique_transaction_id : String
deriving DecidableEq, Repr

/-- The inner additions loop of parse_bakery_system_json
(dag_bakery_system_to_jde.py lines 176-205) for one lot/vessel: `names`
is the enclosing entry's `ingredient_summary` lookup, `lot_number` and
`vessel_code` come from the enclosing lot/vessel.  An addition whose
quantity is null, numerically zero, or a blank/zero string is skipped
silently — it produces no flattened entry at all; every other addition
yields an entry whose `change_value` has been passed through
preserve_quantity_precision and whose `unique_transaction_id` is derived
from the name, lot, vessel and normalized quantity. -/
def parse_bakery_system_additions (names : String → String)
    (lot_number vessel_code : String) (additions : List (String × Qty)) :
    List ParsedEntry :=
  additions.filterMap (fun kv =>
    if isZeroOrNullQty kv.2 then Option.none
    else some
      { ingredient_id := kv.1
        ingredient_name := names kv.1
        change_value := preserve_quantity_precision kv.2
        unique_transaction_id := names kv.1 ++ "_" ++ lot_number ++ "_" ++
          vessel_code ++ "_" ++
          Quantity.normalize_quantity_for_transaction_id (qtyStr kv.2) })

/-- One parsed item as consumed by post_data_to_jde: the `value` fields it
reads.  `Option` marks the fields whose presence the function tests with
`in item["value"]` or reads with `.get(..., "")`. -/
structure Item where
  action_id : String
  ingredient_id : String
  unique_transaction_id : String
  addition_unit : Option String
  change_value : Option Qty
  ingredient_name : Option String
  lot_number : String
  vessel_code : String
  lot_id : String
  vessel_id : String
deriving DecidableEq, Repr

/-- The business-unit routing map of both dispatch call sites: prefixes
`B_`, `P_`, `M_` map to 1110/1130/1120, anything else to the default
1110. -/
def buOf (name : String) : String :=
  if pyStartsWith name "B_" then "1110"
  else if pyStartsWith name "P_" then "1130"
  else if pyStartsWith name "M_" then "1120"
  else "1110"

/-- The payload fields of the JDE inventory-adjustment request that vary
per item (Branch_Plant, Item_Number and the grid Quantity, which the
source renders with `str(change_value)`; Document_Type, Explanation and
the dates are constant or time-derived and carried implicitly). -/
structure JdePayload where
  branch_plant : String
  item_number : String
  quantity : Qty
deriving DecidableEq, Repr

/-- One entry of the `resp_arr` result list of post_data_to_jde, by the
message class the source appends. -/
inductive PEntry where
  | processing (uid : String)
  | already_done (uid : String)
  | empty_field (name : String)
  | posted (uid : String) (status : Nat)
  | post_failed (uid : String) (status : Nat)
deriving DecidableEq, Repr

/-- The loop state of post_data_to_jde: the aggregated result list, the
ledger table, and the payloads actually handed to the HTTP client. -/
structure PostState where
  entries : List PEntry
  ledger : List Ledger.Row
  sent : List JdePayload
deriving DecidableEq, Repr

/-- One iteration of the post_data_to_jde loop
(dag_bakery_system_to_jde.py lines 299-425).  `t n` is the (status, text)
answer of the n-th HTTP post of this run.  The item is skipped when its
identity is already `done` in the ledger, or when its quantity compares
`== 0.0`, its unit is blank, or its name is blank; otherwise the payload
is posted and the outcome is upserted into the ledger: `done` on 200/201,
`error` on every other status. -/
def post_step (t : Nat → Nat × String) (st : PostState) (item : Item) : PostState :=
  let uid := item.unique_transaction_id
  let entries0 := st.entries ++ [PEntry.processing uid]
  let isDone :=
    match Ledger.statusOf st.ledger uid with
    | some s => s == "done"
    | Option.none => false
  if isDone then
    { st with entries := entries0 ++ [PEntry.already_done uid] }
  else
    let uom := item.addition_unit.getD ""
    let cv := item.change_value.getD (Qty.num 0)
    let name := item.ingredient_name.getD ""
    if qtyEqZero cv || uom == "" || name == "" then
      { st with entries := entries0 ++ [PEntry.empty_field name] }
    else
      let payload : JdePayload := ⟨buOf name, name, cv⟩
      let status := (t st.sent.length).1
      let status_text := pyTake (t st.sent.length).2 699
      let ok := status = 200 ∨ status = 201
      let row : Ledger.Row :=
        ⟨item.action_id, item.ingredient_id, item.lot_id, item.vessel_id,
         item.vessel_code, name, uom, status_text,
         if ok then "done" else "error", uid⟩
      { entries := entries0 ++
          [if ok then PEntry.posted uid status else PEntry.post_failed uid status]
        ledger := Ledger.upsert st.ledger row
        sent := st.sent ++ [payload] }

/-- post_data_to_jde (dag_bakery_system_to_jde.py lines 273-430): folds
the per-item step over the parsed items, starting from the given ledger
contents. -/
def post_data_to_jde (t : Nat → Nat × String) (L0 : List Ledger.Row)
    (items : List Item) : PostState :=
  items.foldl (post_step t) ⟨[], L0, []⟩

/-- The batch_data argument of dispatch_single_batch_to_jde (the fields
the function reads; absent optional fields are the empty string, matching
`.get(..., '')`). -/
structure Batch where
  action_id : String
  ingredient_id : String
  ingredient_name : String
  batch_id : String
  batch_number : String
  lot_number : String
  vessel_code : String
  unit : String
  quantity : Qty
deriving DecidableEq, Repr

/-- The error classes of dispatch_single_batch_to_jde's failure results. -/
inductive DError where
  | missing_fields (fields : List String)
  | zero_quantity
  | already_dispatched (uid : String)
  | unit_not_convertible
  | no_lot_number
  | api_error (status : Nat)
deriving DecidableEq, Repr

/-- The outcome of dispatch_single_batch_to_jde: the returned result
(success flag and error class), the ledger afterwards, and whether the
HTTP post was issued. -/
structure DOutcome where
  success : Bool
  error : Option DError
  ledger : List Ledger.Row
  sent : Bool
deriving DecidableEq, Repr

/-- The unit maps of backend/utility.py: JDE unit to data-lake unit, and
its reversal. -/
def unit_map : List (String × String) :=
  [("KG", "kg"), ("EA", "each"), ("LT", "L"), ("M2", "m2"), ("C2", "c2"),
   ("PK", "pack"), ("ST", "ST"), ("FN", "FN"), ("GR", "g"), ("ML", "mL")]

/-- Association-list lookup for the unit maps. -/
def lookupS (l : List (String × String)) (k : String) : Option String :=
  match l.find? (fun kv => kv.1 == k) with
  | some kv => some kv.2
  | Option.none => Option.none

/-- reverse_unit_map: data-lake unit back to JDE unit. -/
def reverse_unit_map : List (String × String) :=
  unit_map.map (fun kv => (kv.2, kv.1))

/-- convert_unit(unit, direction='to_jde') (backend/utility.py lines
93-99): `reverse_unit_map.get(unit, reverse_unit_map.get(unit.lower(),
unit.upper()))`. -/
def convert_unit_to_jde (u : String) : String :=
  match lookupS reverse_unit_map u with
  | some v => v
  | Option.none =>
      match lookupS reverse_unit_map u.toLower with
      | some v => v
      | Option.none => u.toUpper

/-- The required-fields screen of dispatch_single_batch_to_jde (lines
1069-1076): the listed fields whose value is Python-falsy. -/
def missing_required_fields (b : Batch) : List String :=
  (["action_id", "ingredient_id", "ingredient_name", "batch_id",
    "quantity", "unit"]).filter (fun f =>
      match f with
      | "action_id" => b.action_id == ""
      | "ingredient_id" => b.ingredient_id == ""
      | "ingredient_name" => b.ingredient_name == ""
      | "batch_id" => b.batch_id == ""
      | "quantity" => qtyFalsy b.quantity
      | "unit" => b.unit == ""
      | _ => false)

/-- Python `str.replace(old, new, 1)` with `new = ""`: removes the first
occurrence of `old`. -/
def replaceFirst (s pat : String) : String :=
  match s.splitOn pat with
  | [] => s
  | [_] => s
  | a :: rest => a ++ String.intercalate pat rest

/-- dispatch_single_batch_to_jde (backend/jde_helper.py lines 1048-1228).
`resp` is the (status, text) answer of the JDE post.  Validation failures
(missing/falsy required fields, zero-or-null quantity, already-dispatched
identity, undeterminable lot) return an error result without issuing the
post.  After the post, a ledger row is upserted with status `done` only
on 200/201; on every other status the function returns an error result
and writes nothing.  (The environment-credential check is assumed
satisfied; the JDE payload itself is elided as no claim observes it.) -/
def dispatch_single_batch_to_jde (b : Batch) (L : List Ledger.Row)
    (resp : Nat × String) : DOutcome :=
  let missing := missing_required_fields b
  if missing ≠ [] then ⟨false, some (.missing_fields missing), L, false⟩
  else if isZeroOrNullQty b.quantity then ⟨false, some .zero_quantity, L, false⟩
  else
    let normalized := Quantity.normalize_quantity_for_transaction_id (qtyStr b.quantity)
    let uid := b.ingredient_name ++ "_" ++ b.lot_number ++ "_" ++
      b.vessel_code ++ "_" ++ normalized
    let dispatched :=
      (L.find? (fun r =>
        r.unique_transaction_id == uid && r.status == "done")).isSome
    if dispatched then ⟨false, some (.already_dispatched uid), L, false⟩
    else
      let cu := convert_unit_to_jde b.unit
      if cu = "" then ⟨false, some .unit_not_convertible, L, false⟩
      else
        let lot :=
          if b.lot_number = "" ∧ b.batch_number ≠ "" then
            replaceFirst b.batch_number (b.ingredient_name ++ "_")
          else b.lot_number
        if lot = "" then ⟨false, some .no_lot_number, L, false⟩
        else
          let status := resp.1
          let status_text := pyTake resp.2 699
          if status = 200 ∨ status = 201 then
            let row : Ledger.Row :=
              ⟨b.action_id, b.ingredient_id, b.batch_id, "", b.vessel_code,
               b.ingredient_name, b.unit, status_text, "done", uid⟩
            ⟨true, Option.none, Ledger.upsert L row, true⟩
          else ⟨false, some (.api_error status), L, true⟩

/-- A well-formed batch whose dispatch is rejected by the destination:
used to exercise the failure path of dispatch_single_batch_to_jde. -/
def sampleBatch : Batch :=
  ⟨"a1", "i1", "Flour", "b1", "", "LOT1", "V1", "kg", .num 5⟩

/-- A parsed item whose change_value is the string "0": the zero screen of
post_data_to_jde compares `change_value == 0.0`, which is False for the
string, so this item reaches the HTTP client. -/
def stringZeroItem : Item :=
  { action_id := "a", ingredient_id := "i", unique_transaction_id := "X_L_V_0",
    addition_unit := some "kg", change_value := some (.str "0"),
    ingredient_name := some "X", lot_number := "L", vessel_code := "V",
    lot_id := "l", vessel_id := "v" }

/-- An eligible parsed item (non-zero quantity, unit and name present). -/
def eligibleItem : Item :=
  { action_id := "a", ingredient_id := "i", unique_transaction_id := "Flour_L_V_5",
    addition_unit := some "kg", change_value := some (.num 5),
    ingredient_name := some "Flour", lot_number := "L", vessel_code := "V",
    lot_id := "l", vessel_id := "v" }

/-- A batch whose quantity is the string "0.0", one of the zero forms. -/
def zeroStringBatch : Batch :=
  ⟨"a", "i", "Flour", "b", "", "L", "V", "kg", .str "0.0"⟩

end Pipeline

namespace Ledger

/-- A first ledger write for an identity. -/
def sampleRowA : Row :=
  ⟨"a1", "i1", "l1", "v1", "vc1", "Flour", "kg", "first", "done", "Flour_LOT1_V1_5"⟩

/-- A second write for the same identity with different context fields and
a different outcome. -/
def sampleRowB : Row :=
  ⟨"a2", "i2", "l2", "v2", "vc2", "Other", "g", "second", "error", "Flour_LOT1_V1_5"⟩

end Ledger

namespace Lru

/-- A row of the `app_requests_lru_cache` table.  The `response` column
stores `json.dumps` of the cached value; since `json.loads ∘ json.dumps`
is the identity on JSON values, the row is modelled as holding the
decoded value directly (rows holding non-JSON text, which the reader
purges, are outside the model). -/
structure CacheRow where
  cache_key : String
  response : PyVal
  timestamp : Int
deriving DecidableEq, Repr

/-- delete_from_lru_cache (backend/utility.py lines 547-582):
`DELETE FROM app_requests_lru_cache WHERE cache_key = %s`. -/
def delete_from_lru_cache (k : String) (st : List CacheRow) : List CacheRow :=
  st.filter (fun r => ! (r.cache_key == k))

/-- get_from_lru_cache (backend/utility.py lines 497-544):
`SELECT response ... WHERE cache_key = %s AND timestamp > NOW() - 3600s`;
an entry found with an empty-list body is purged and reported absent.
Returns the read result and the table afterwards. -/
def get_from_lru_cache (st : List CacheRow) (now : Int) (k : String) :
    Option PyVal × List CacheRow :=
  match st.find? (fun r => r.cache_key == k && decide (now - 3600 < r.timestamp)) with
  | some r =>
      match r.response with
      | .list [] => (Option.none, delete_from_lru_cache k st)
      | v => (some v, st)
  | Option.none => (Option.none, st)

/-- set_in_lru_cache (backend/utility.py lines 696-746): a single-element
list response is stored as its sole element; the insert uses
`ON CONFLICT (cache_key) DO NOTHING`, so a key that already has a row —
fresh or stale — is left entirely unchanged. -/
def set_in_lru_cache (k : String) (response : PyVal) (now : Int)
    (st : List CacheRow) : List CacheRow :=
  let normalized :=
    match response with
    | .list [x] => x
    | v => v
  if st.any (fun r => r.cache_key == k) then st
  else st ++ [⟨k, normalized, now⟩]

/-- The fresh-request tail of retry_request_lru for a GET
(backend/utility.py lines 319-330): issue retry_request; cache the result
only when it is non-None and not an empty list; return it. -/
def lru_fresh_request (fuel : Nat) (t : Nat → Retry.RResult) (k : String)
    (st : List CacheRow) (now : Int) : Option PyVal × List CacheRow :=
  match (Retry.retry_request fuel t).1 with
  | Option.none => (Option.none, st)
  | some (.list []) => (some (.list []), st)
  | some v => (some v, set_in_lru_cache k v now st)

/-- retry_request_lru for a GET request (backend/utility.py lines
275-334), with the cache key already computed.  A cache hit returns the
cached value (the source re-decodes string-valued hits with a second
`json.loads`; no theorem below observes a string-valued hit, and the
branch is modelled as returning the string).  The empty-hit arm is
unreachable because get_from_lru_cache already purges empty entries, but
is kept as in the source. -/
def retry_request_lru_get (fuel : Nat) (t : Nat → Retry.RResult) (k : String)
    (st : List CacheRow) (now : Int) : Option PyVal × List CacheRow :=
  match get_from_lru_cache st now k with
  | (some cv, st1) =>
      match cv with
      | .list [] => lru_fresh_request fuel t k (delete_from_lru_cache k st1) now
      | v => (some v, st1)
  | (Option.none, st1) => lru_fresh_request fuel t k st1 now

end Lru

namespace CacheKey

/-- UTF-8 encoding of a character, as `str.encode('utf-8')` produces (one
to four bytes, given as numbers below 256). -/
def utf8Bytes (c : Char) : List Nat :=
  let n := c.toNat
  if n < 128 then [n]
  else if n < 2048 then [192 + n / 64, 128 + n % 64]
  else if n < 65536 then [224 + n / 4096, 128 + n / 64 % 64, 128 + n % 64]
  else [240 + n / 262144, 128 + n / 4096 % 64, 128 + n / 64 % 64, 128 + n % 64]

/-- UTF-8 bytes of a string. -/
def strBytes (s : String) : List Nat :=
  s.data.foldr (fun c acc => utf8Bytes c ++ acc) []

/-- Truncation to 32 bits. -/
def w32 (n : Nat) : Nat := n % 4294967296

/-- 32-bit right rotation. -/
def rotr32 (k n : Nat) : Nat := w32 (n / 2 ^ k + n % 2 ^ k * 2 ^ (32 - k))

/-- Logical right shift. -/
def shr32 (k n : Nat) : Nat := n / 2 ^ k

/-- 32-bit bitwise complement. -/
def not32 (n : Nat) : Nat := 4294967295 - n

/-- The SHA-256 round constants (fractional parts of the cube roots of
the first 64 primes). -/
def shaK : List Nat :=
  [1116352408, 1899447441, 3049323471, 3921009573,
   961987163, 1508970993, 2453635748, 2870763221,
   3624381080, 310598401, 607225278, 1426881987,
   1925078388, 2162078206, 2614888103, 3248222580,
   3835390401, 4022224774, 264347078, 604807628,
   770255983, 1249150122, 1555081692, 1996064986,
   2554220882, 2821834349, 2952996808, 3210313671,
   3336571891, 3584528711, 113926993, 338241895,
   666307205, 773529912, 1294757372, 1396182291,
   1695183700, 1986661051, 2177026350, 2456956037,
   2730485921, 2820302411, 3259730800, 3345764771,
   3516065817, 3600352804, 4094571909, 275423344,
   430227734, 506948616, 659060556, 883997877,
   958139571, 1322822218, 1537002063, 1747873779,
   1955562222, 2024104815, 2227730452, 2361852424,
   2428436474, 2756734187, 3204031479, 3329325298]

/-- The SHA-256 initial state (fractional parts of the square roots of the
first 8 primes). -/
def shaH0 : List Nat :=
  [1779033703, 3144134277, 1013904242, 2773480762,
   1359893119, 2600822924, 528734635, 1541459225]

/-- Big-endian 64-bit length field of the padding. -/
def be64 (n : Nat) : List Nat :=
  [n / 2 ^ 56 % 256, n / 2 ^ 48 % 256, n / 2 ^ 40 % 256, n / 2 ^ 32 % 256,
   n / 2 ^ 24 % 256, n / 2 ^ 16 % 256, n / 2 ^ 8 % 256, n % 256]

/-- SHA-256 message padding: a 0x80 byte, zeros to 56 mod 64, and the
bit length, big-endian. -/
def padBytes (msg : List Nat) : List Nat :=
  let len := msg.length
  let zeros := (64 - (len + 9) % 64) % 64
  msg ++ [128] ++ List.replicate zeros 0 ++ be64 (8 * len)

/-- Big-endian 32-bit words of a byte list. -/
def toWords : List Nat → List Nat
  | b1 :: b2 :: b3 :: b4 :: rest =>
      (b1 * 16777216 + b2 * 65536 + b3 * 256 + b4) :: toWords rest
  | _ => []

/-- Split a word list into 16-word blocks. -/
def wordBlocks : List Nat → List (List Nat)
  | [] => []
  | w :: rest => ((w :: rest).take 16) :: wordBlocks ((w :: rest).drop 16)
termination_by l => l.length
decreasing_by
  simp only [List.length_drop, List.length_cons]
  omega

/-- The two small sigma functions of the message schedule. -/
def ssig0 (x : Nat) : Nat := rotr32 7 x ^^^ rotr32 18 x ^^^ shr32 3 x

/-- Second small sigma. -/
def ssig1 (x : Nat) : Nat := rotr32 17 x ^^^ rotr32 19 x ^^^ shr32 10 x

/-- The two big sigma functions of the compression rounds. -/
def bsig0 (x : Nat) : Nat := rotr32 2 x ^^^ rotr32 13 x ^^^ rotr32 22 x

/-- Second big sigma. -/
def bsig1 (x : Nat) : Nat := rotr32 6 x ^^^ rotr32 11 x ^^^ rotr32 25 x

/-- Extend a 16-word block to the 64-word message schedule (`k` rounds of
extension remain). -/
def extendW (w : List Nat) : Nat → List Nat
  | 0 => w
  | k + 1 =>
      let t := w.length
      let nw := w32 (ssig1 (w.getD (t - 2) 0) + w.getD (t - 7) 0 +
        ssig0 (w.getD (t - 15) 0) + w.getD (t - 16) 0)
      extendW (w ++ [nw]) k

/-- One compression round.  The state is the eight working variables. -/
def shaRound (st : List Nat) (kw : Nat × Nat) : List Nat :=
  let a := st.getD 0 0
  let b := st.getD 1 0
  let c := st.getD 2 0
  let d := st.getD 3 0
  let e := st.getD 4 0
  let f := st.getD 5 0
  let g := st.getD 6 0
  let h := st.getD 7 0
  let ch := (e &&& f) ^^^ (not32 e &&& g)
  let maj := (a &&& b) ^^^ (a &&& c) ^^^ (b &&& c)
  let t1 := w32 (h + bsig1 e + ch + kw.1 + kw.2)
  let t2 := w32 (bsig0 a + maj)
  [w32 (t1 + t2), a, b, c, w32 (d + t1), e, f, g]

/-- Compress one block into the hash state. -/
def shaCompress (h : List Nat) (block : List Nat) : List Nat :=
  let ws := extendW block 48
  let fin := (shaK.zip ws).foldl shaRound h
  List.zipWith (fun x y => w32 (x + y)) h fin

/-- The SHA-256 state of a byte message. -/
def sha256words (msg : List Nat) : List Nat :=
  (wordBlocks (toWords (padBytes msg))).foldl shaCompress shaH0

/-- A hexadecimal digit character. -/
def hexDigit (n : Nat) : Char :=
  if n < 10 then Char.ofNat (48 + n) else Char.ofNat (87 + n)

/-- Eight hex digits of a 32-bit word. -/
def hex8 (n : Nat) : List Char :=
  [hexDigit (n / 268435456 % 16), hexDigit (n / 16777216 % 16),
   hexDigit (n / 1048576 % 16), hexDigit (n / 65536 % 16),
   hexDigit (n / 4096 % 16), hexDigit (n / 256 % 16),
   hexDigit (n / 16 % 16), hexDigit (n % 16)]

/-- `hashlib.sha256(data).hexdigest()` of a string's UTF-8 bytes. -/
def sha256hex (s : String) : String :=
  String.mk ((sha256words (strBytes s)).foldr (fun w acc => hex8 w ++ acc) [])

/-- The result type of normalize_dict: leaves are strings (the source
converts every non-None leaf with `str(d)`) or nulls; dictionaries and
lists keep their structure. -/
inductive NVal where
  | str (s : String)
  | null
  | dict (kvs : List (String × NVal))
  | list (items : List NVal)
deriving Repr

/-- Insert into a key-sorted association list, before any entry of
larger-or-equal key (the stable position for an element that preceded the
rest, matching Python's stable `sorted` when keys are distinct; on
duplicate keys Python would compare the values, which never happens for
dictionary items). -/
def insertByKey {α : Type} (a : String × α) : List (String × α) → List (String × α)
  | [] => [a]
  | b :: l => if a.1 ≤ b.1 then a :: b :: l else b :: insertByKey a l

/-- `sorted(d.items())` for dictionary items: insertion sort by key. -/
def sortByKey {α : Type} : List (String × α) → List (String × α)
  | [] => []
  | a :: l => insertByKey a (sortByKey l)

mutual

/-- normalize_dict (backend/utility.py lines 447-459): sorts dictionary
keys recursively, recurses into lists, converts non-None leaves to their
`str()` form and keeps None.  (The source sorts the items and then
normalizes each value; since the sort compares only keys, which
normalization never touches, normalizing the values first and sorting the
result — as written here for structural recursion — produces the same
list; `sortByKey_mapVals` below proves the two orders agree.) -/
def normalize_dict : PyVal → NVal
  | .str s => .str s
  | .int n => .str (toString n)
  | .null => .null
  | .dict kvs => .dict (sortByKey (normKvs kvs))
  | .list items => .list (normList items)

/-- Values of a key-value list, normalized. -/
def normKvs : List (String × PyVal) → List (String × NVal)
  | [] => []
  | (k, v) :: r => (k, normalize_dict v) :: normKvs r

/-- Elements of a list, normalized. -/
def normList : List PyVal → List NVal
  | [] => []
  | v :: r => normalize_dict v :: normList r

end

/-- Whether a key-value list has pairwise distinct keys (always true of a
list that came from a Python dict). -/
def nodupKeysb : List (String × PyVal) → Bool
  | [] => true
  | (k, _) :: r => !(r.any (fun kv => kv.1 == k)) && nodupKeysb r

mutual

/-- Equality of two values as Python maps: dictionaries compare as
key-value sets (same size, distinct keys, and every pair of the first
looked up in the second with recursively map-equal values, in any
insertion order); lists compare pointwise; leaves compare by value.  This
is the hypothesis "equal as maps at every nesting depth". -/
def mapEqb : PyVal → PyVal → Bool
  | .str a, .str b => a == b
  | .int a, .int b => a == b
  | .null, .null => true
  | .dict l1, .dict l2 =>
      nodupKeysb l1 && nodupKeysb l2 && l1.length == l2.length && mapEqKvs l1 l2
  | .list a, .list b => mapEqList a b
  | _, _ => false

/-- Every pair of the first list is present in the second with a
map-equal value. -/
def mapEqKvs : List (String × PyVal) → List (String × PyVal) → Bool
  | [], _ => true
  | (k, v) :: r, l2 =>
      (match lookupKV l2 k with
       | some v' => mapEqb v v'
       | Option.none => false) && mapEqKvs r l2

/-- Pointwise map-equality of value lists. -/
def mapEqList : List PyVal → List PyVal → Bool
  | [], [] => true
  | v :: r, v' :: r' => mapEqb v v' && mapEqList r r'
  | _, _ => false

end

/-- A hexadecimal escape `\uXXXX`. -/
def hex4 (n : Nat) : List Char :=
  [hexDigit (n / 4096 % 16), hexDigit (n / 256 % 16),
   hexDigit (n / 16 % 16), hexDigit (n % 16)]

/-- JSON string escaping as `json.dumps` (default `ensure_ascii=True`)
performs it: quote, backslash and control characters escaped, non-ASCII
characters of the basic plane as `\uXXXX`. -/
def jsonEscapeChar (c : Char) : List Char :=
  if c = '"' then ['\\', '"']
  else if c = '\\' then ['\\', '\\']
  else if c = '\n' then ['\\', 'n']
  else if c = '\t' then ['\\', 't']
  else if c = '\r' then ['\\', 'r']
  else if c.toNat = 8 then ['\\', 'b']
  else if c.toNat = 12 then ['\\', 'f']
  else if c.toNat < 32 ∨ c.toNat > 126 then '\\' :: 'u' :: hex4 c.toNat
  else [c]

/-- A JSON string literal. -/
def jsonQuote (s : String) : String :=
  String.mk ('"' :: s.data.foldr (fun c acc => jsonEscapeChar c ++ acc) ['"'])

mutual

/-- `json.dumps(v, sort_keys=True, separators=(',', ':'))` on a
normalized value: dictionary items are rendered in key-sorted order with
compact separators.  (Rendering the values and then sorting the rendered
pairs by key equals sorting first and then rendering, as the sort
compares only keys.) -/
def dumps : NVal → String
  | .str s => jsonQuote s
  | .null => "null"
  | .dict kvs =>
      "\x7b" ++ String.intercalate ","
        ((sortByKey (dumpKvs kvs)).map (fun kv => jsonQuote kv.1 ++ ":" ++ kv.2)) ++
        "\x7d"
  | .list items => "[" ++ String.intercalate "," (dumpList items) ++ "]"

/-- Rendered key-value pairs of a normalized dictionary. -/
def dumpKvs : List (String × NVal) → List (String × String)
  | [] => []
  | (k, v) :: r => (k, dumps v) :: dumpKvs r

/-- Rendered elements of a list. -/
def dumpList : List NVal → List String
  | [] => []
  | v :: r => dumps v :: dumpList r

end

/-- `urlparse`: the fragment-free part of the URL before the first `?`
(the source reassembles `scheme://netloc/path` as `base_url`) and the
query string after it. -/
def urlSplit (url : String) : String × String :=
  let nofrag := (url.splitOn "#").headD url
  match nofrag.splitOn "?" with
  | [] => (nofrag, "")
  | [b] => (b, "")
  | b :: rest => (b, String.intercalate "?" rest)

/-- One `name=value` chunk of a query string: split at the first `=`;
a chunk without `=` keeps a blank value (`keep_blank_values=True`). -/
def qsPair (s : String) : String × String :=
  match s.splitOn "=" with
  | [] => ("", "")
  | k :: rest => (k, String.intercalate "=" rest)

/-- The `name=value` pairs of a query string: `&`-separated chunks, empty
chunks skipped (percent decoding does not occur in the URLs this key
derivation receives and is not modelled). -/
def qsPairs (query : String) : List (String × String) :=
  (query.splitOn "&").filterMap (fun chunk =>
    if chunk = "" then Option.none else some (qsPair chunk))

/-- First occurrences of each string, in order. -/
def firstDedup : List String → List String
  | [] => []
  | k :: r => k :: (firstDedup r).filter (fun x => !(x == k))

/-- `urllib.parse.parse_qs(query, keep_blank_values=True)`: for each key
in first-occurrence order, the list of its values. -/
def parse_qs (query : String) : List (String × List String) :=
  let prs := qsPairs query
  (firstDedup (prs.map Prod.fst)).map (fun k =>
    (k, (prs.filter (fun kv => kv.1 == k)).map Prod.snd))

/-- The query parameters already in the URL, flattened as the source does:
a single-element value list becomes the bare string. -/
def url_params_flat (url : String) : List (String × PyVal) :=
  (parse_qs (urlSplit url).2).map (fun kg =>
    (kg.1,
     match kg.2 with
     | [v] => PyVal.str v
     | vs => PyVal.list (vs.map PyVal.str)))

/-- Python `d[k] = v`: replace the value of an existing key in place, or
append a new entry. -/
def setKey : List (String × PyVal) → String → PyVal → List (String × PyVal)
  | [], k, v => [(k, v)]
  | (k', v') :: r, k, v =>
      if k' == k then (k, v) :: r else (k', v') :: setKey r k v

/-- Python `base.update(ps)`: set every pair of `ps` in order. -/
def dictUpdate (base ps : List (String × PyVal)) : List (String × PyVal) :=
  ps.foldl (fun acc kv => setKey acc kv.1 kv.2) base

/-- _create_cache_key (backend/utility.py lines 428-494): parse the URL,
merge its query parameters with the provided ones, normalize params and
payload, render both as compact sorted JSON, concatenate
base-url‖params‖payload with `||` separators and hash with SHA-256.
Python's `if params:` / `if payload:` / `if all_params:` truthiness tests
become emptiness tests on the association lists (an absent dict and an
empty dict are both falsy). -/
def create_cache_key (url : String) (params payload : List (String × PyVal)) : String :=
  let url_params := url_params_flat url
  let all_params := if params ≠ [] then dictUpdate url_params params else url_params
  let normalized_params :=
    if all_params ≠ [] then normalize_dict (.dict all_params) else NVal.dict []
  let normalized_payload :=
    if payload ≠ [] then normalize_dict (.dict payload) else NVal.dict []
  let base_url := (urlSplit url).1
  let params_json := dumps normalized_params
  let payload_json := dumps normalized_payload
  sha256hex (base_url ++ "||" ++ params_json ++ "||" ++ payload_json)

end CacheKey

/-- Helper: appending the same string on the left is injective. -/
theorem string_append_cancel_left (s x y : String) (h : s ++ x = s ++ y) : x = y := by
  have h2 : (s ++ x).data = (s ++ y).data := congrArg String.data h
  simp [String.data_append] at h2
  exact String.ext h2

/-- C3 counterexample: the claim asserts that `5.100000001` normalizes equal
to `5.1` at the nine-decimal rounding boundary, but `5.100000001` has exactly
nine fraction digits, so the nine-decimal rendering keeps it intact and it
normalizes to a different string than `5.1`. -/
theorem c3_boundary_counterexample :
    ¬ (Quantity.normalize_quantity_for_transaction_id "5.100000001" =
       Quantity.normalize_quantity_for_transaction_id "5.1") := by decide

/-- C3 (amended): identity derivation is deterministic and collapses exactly
at nine-decimal normalization: for all components and quantities,
`derive a b c q1 = derive a b c q2` if and only if the two quantities
normalize to the same string; `5`, `5.0` and `5.000000000` all normalize
identically; `5.1` and `5.10000001` normalize differently; and the
nine-decimal rounding boundary lies one digit further out than the claim
states: `5.100000001` (nine decimals) stays distinct from `5.1`, while
`5.1000000001` (ten decimals) rounds-equal to `5.1`. -/
theorem c3_identity_determinism :
    (∀ a b c q1 q2 : String,
      Quantity.derive a b c q1 = Quantity.derive a b c q2 ↔
        Quantity.normalize_quantity_for_transaction_id q1 =
          Quantity.normalize_quantity_for_transaction_id q2) ∧
    (Quantity.normalize_quantity_for_transaction_id "5" = "5" ∧
     Quantity.normalize_quantity_for_transaction_id "5.0" = "5" ∧
     Quantity.normalize_quantity_for_transaction_id "5.000000000" = "5") ∧
    Quantity.normalize_quantity_for_transaction_id "5.1" ≠
      Quantity.normalize_quantity_for_transaction_id "5.10000001" ∧
    Quantity.normalize_quantity_for_transaction_id "5.100000001" ≠
      Quantity.normalize_quantity_for_transaction_id "5.1" ∧
    Quantity.normalize_quantity_for_transaction_id "5.1000000001" =
      Quantity.normalize_quantity_for_transaction_id "5.1" := by
  refine ⟨?_, by decide, by decide, by decide, by decide⟩
  intro a b c q1 q2
  constructor
  · intro h
    unfold Quantity.derive at h
    have h2 := congrArg String.data h
    simp only [String.data_append, List.append_assoc, List.singleton_append,
      List.append_right_inj, List.cons.injEq, true_and] at h2
    exact String.ext h2
  · intro h
    simp [Quantity.derive, h]

/-- C1: recording an outcome a second time for the same transaction
identity leaves exactly one ledger row for that identity; the second
write overwrites only `status` and `status_text` with its own values, and
every other field keeps the value from the original insert. -/
theorem c1_upsert_second_write (L : List Ledger.Row) (r1 r2 : Ledger.Row)
    (h0 : ∀ r ∈ L, r.unique_transaction_id ≠ r1.unique_transaction_id)
    (h1 : r2.unique_transaction_id = r1.unique_transaction_id) :
    (Ledger.upsert (Ledger.upsert L r1) r2).filter
        (fun x => x.unique_transaction_id == r1.unique_transaction_id) =
      [{ r1 with status_text := r2.status_text, status := r2.status }] := by
  have hany : (L.any fun x => x.unique_transaction_id == r1.unique_transaction_id) = false := by
    simp only [List.any_eq_false]
    intro x hx
    simpa using h0 x hx
  have e1 : Ledger.upsert L r1 = L ++ [r1] := by
    simp [Ledger.upsert, hany]
  have hmem : ((L ++ [r1]).any fun x => x.unique_transaction_id == r2.unique_transaction_id) = true := by
    simp [List.any_append, h1]
  have e2 : Ledger.upsert (L ++ [r1]) r2 = (L ++ [r1]).map (fun x =>
      if x.unique_transaction_id == r2.unique_transaction_id then
        { x with status_text := r2.status_text, status := r2.status }
      else x) := by
    simp [Ledger.upsert, hmem]
  rw [e1, e2, List.map_append, List.filter_append]
  have hLmap : L.map (fun x =>
      if x.unique_transaction_id == r2.unique_transaction_id then
        { x with status_text := r2.status_text, status := r2.status }
      else x) = L := by
    have : ∀ x ∈ L, (fun x : Ledger.Row =>
        if x.unique_transaction_id == r2.unique_transaction_id then
          { x with status_text := r2.status_text, status := r2.status }
        else x) x = id x := by
      intro x hx
      simp only [id]
      rw [if_neg]
      simp [h1, h0 x hx]
    rw [List.map_congr_left this, List.map_id]
  rw [hLmap]
  have hfL : L.filter (fun x => x.unique_transaction_id == r1.unique_transaction_id) = [] := by
    rw [List.filter_eq_nil_iff]
    intro x hx
    simp [h0 x hx]
  rw [hfL]
  simp [h1]

/-- Witness for C1 at an empty ledger and two concrete writes for the same
identity. -/
theorem c1_upsert_second_write_witness :
    (∀ r ∈ ([] : List Ledger.Row),
      r.unique_transaction_id ≠ Ledger.sampleRowA.unique_transaction_id) ∧
    Ledger.sampleRowB.unique_transaction_id = Ledger.sampleRowA.unique_transaction_id ∧
    (Ledger.upsert (Ledger.upsert [] Ledger.sampleRowA) Ledger.sampleRowB).filter
        (fun x => x.unique_transaction_id == Ledger.sampleRowA.unique_transaction_id) =
      [{ Ledger.sampleRowA with
          status_text := Ledger.sampleRowB.status_text,
          status := Ledger.sampleRowB.status }] :=
  ⟨by simp, rfl, c1_upsert_second_write [] Ledger.sampleRowA Ledger.sampleRowB (by simp) rfl⟩

/-- C2: when the server answers 429 on every attempt with no wait hint,
retry_request re-issues the request once per unit of recursion budget and
returns a failure (`None`) when the budget is exhausted — the retry
recursion is capped by the interpreter's recursion limit, whose
`RecursionError` is caught by the function's catch-all, so the call
terminates with a failure rather than re-issuing forever. -/
theorem c2_rate_limit_terminates (fuel : Nat) (t : Nat → Retry.RResult)
    (h : ∀ n, t n = .resp 429 Option.none "") :
    Retry.retry_request fuel t = (Option.none, fuel) := by
  unfold Retry.retry_request
  suffices main : ∀ f i, Retry.retry_request_aux f t i = (Option.none, f) from main fuel 0
  intro f
  induction f with
  | zero => intro i; rfl
  | succ f ih =>
    intro i
    simp [Retry.retry_request_aux, h i, Retry.rlWait, ih (i + 1)]

/-- Witness for C2 with budget 3 and a transport that always answers 429
with an unparsable body. -/
theorem c2_rate_limit_terminates_witness :
    (∀ n : Nat, (fun _ : Nat => Retry.RResult.resp 429 Option.none "") n =
      Retry.RResult.resp 429 Option.none "") ∧
    Retry.retry_request 3 (fun _ => Retry.RResult.resp 429 Option.none "") =
      (Option.none, 3) :=
  ⟨fun _ => rfl, c2_rate_limit_terminates 3 _ (fun _ => rfl)⟩

/-- C4 counterexample: a well-formed batch whose dispatch is answered with
status 500 — dispatch_single_batch_to_jde issues the post (`sent = true`)
and fails, but leaves the ledger untouched: the non-retryable failure is
not recorded as an `error` row, contradicting the claim that both outcome
paths always persist a row. -/
theorem c4_failure_not_recorded_counterexample :
    (Pipeline.dispatch_single_batch_to_jde Pipeline.sampleBatch [] (500, "boom")).sent = true ∧
    (Pipeline.dispatch_single_batch_to_jde Pipeline.sampleBatch [] (500, "boom")).success = false ∧
    (Pipeline.dispatch_single_batch_to_jde Pipeline.sampleBatch [] (500, "boom")).ledger = [] :=
  ⟨rfl, rfl, rfl⟩

/-- C4 (amended): in post_data_to_jde every candidate that is actually
sent gets a ledger row afterwards — `done` when the destination answers
200/201 and `error` on any other status; dispatch_single_batch_to_jde, by
contrast, records a row only on success: on any non-2xx response it
returns a failure result and leaves the ledger unchanged. -/
theorem c4_outcome_recording :
    (∀ (t : Nat → Nat × String) (st : Pipeline.PostState) (item : Pipeline.Item),
      (Pipeline.post_step t st item).sent ≠ st.sent →
      Ledger.statusOf (Pipeline.post_step t st item).ledger item.unique_transaction_id =
        some (if (t st.sent.length).1 = 200 ∨ (t st.sent.length).1 = 201
          then "done" else "error")) ∧
    (∀ (b : Pipeline.Batch) (L : List Ledger.Row) (status : Nat) (text : String),
      ¬ (status = 200 ∨ status = 201) →
      (Pipeline.dispatch_single_batch_to_jde b L (status, text)).ledger = L ∧
      (Pipeline.dispatch_single_batch_to_jde b L (status, text)).success = false) := by
  constructor
  · intro t st item h
    by_cases hdone : (match Ledger.statusOf st.ledger item.unique_transaction_id with
        | some s => s == "done"
        | Option.none => false) = true
    · exfalso
      apply h
      simp [Pipeline.post_step, hdone]
    · by_cases hskip : (Pipeline.qtyEqZero (item.change_value.getD (Pipeline.Qty.num 0)) ||
          item.addition_unit.getD "" == "" || item.ingredient_name.getD "" == "") = true
      · exfalso
        apply h
        simp [Pipeline.post_step, hdone, hskip]
      · simp only [Bool.not_eq_true] at hdone hskip
        simp only [Pipeline.post_step, hdone, hskip]
        simp only [Bool.false_eq_true, if_false]
        exact Ledger.statusOf_upsert _ _
  · intro b L status text h
    constructor <;>
      (simp only [Pipeline.dispatch_single_batch_to_jde]
       split_ifs <;> simp_all)

/-- Witness for C4 (amended): a concrete eligible item posted with answer
500 leaves an `error` row in the ledger under its identity. -/
theorem c4_outcome_recording_witness :
    (Pipeline.post_step (fun _ => (500, "boom")) ⟨[], [], []⟩ Pipeline.eligibleItem).sent ≠
      (⟨[], [], []⟩ : Pipeline.PostState).sent ∧
    Ledger.statusOf
        (Pipeline.post_step (fun _ => (500, "boom")) ⟨[], [], []⟩ Pipeline.eligibleItem).ledger
        Pipeline.eligibleItem.unique_transaction_id = some "error" := by
  refine ⟨by decide, ?_⟩
  have := c4_outcome_recording.1 (fun _ => (500, "boom")) ⟨[], [], []⟩
    Pipeline.eligibleItem (by decide)
  simpa using this

/-- C5 counterexample: a transport that fails at the transport level on
the first attempt and would succeed on the second.  retry_request returns
a failure after a single attempt: had it retried (the claim says three
attempts), the call would have succeeded. -/
theorem c5_transient_failure_counterexample :
    Retry.retry_request 10 Retry.transientFailTransport = (Option.none, 1) ∧
    Retry.transientFailTransport 1 = .resp 200 (some (.int 5)) "" := ⟨rfl, rfl⟩

/-- C5 (amended): on a transport-level failure (timeout, connection
error) retry_request does not retry at all: the exception is caught and
the failure is surfaced to the caller immediately, after exactly one
attempt. -/
theorem c5_no_transport_retry (fuel : Nat) (t : Nat → Retry.RResult)
    (h : t 0 = Retry.RResult.exn) :
    Retry.retry_request (fuel + 1) t = (Option.none, 1) := by
  simp [Retry.retry_request, Retry.retry_request_aux, h]

/-- Witness for C5 (amended) at the transient-failure transport. -/
theorem c5_no_transport_retry_witness :
    Retry.transientFailTransport 0 = Retry.RResult.exn ∧
    Retry.retry_request 10 Retry.transientFailTransport = (Option.none, 1) :=
  ⟨rfl, c5_no_transport_retry 9 Retry.transientFailTransport rfl⟩

/-- C6: evaluation at the failing input.  A POST answered 400 with body
`msg: duplicate value` makes retry_request return `None` after a single
attempt: the branch that raises an exception embedding the body's message
(source comment: "especially important for duplicate errors") is defeated
by the function's own catch-all, so the response body never reaches the
caller — only the log. -/
theorem c6_error_body_lost :
    Retry.retry_request 10 Retry.duplicate400Transport = (Option.none, 1) := rfl

/-- C7 counterexample: a candidate whose quantity is the string "0"
reaches the HTTP client of post_data_to_jde: the filter compares
`change_value == 0.0`, which is False for the string "0", so the payload
is built and posted. -/
theorem c7_string_zero_sent_counterexample :
    (Pipeline.post_data_to_jde (fun _ => (201, "ok")) [] [Pipeline.stringZeroItem]).sent =
      [⟨"1110", "X", Pipeline.Qty.str "0"⟩] := rfl

/-- C7 (amended): the three screens behave differently.  In
parse_bakery_system_json a candidate with quantity None, 0, "0", "0.0" or
"" is dropped silently — it yields no entry (and hence no result-list
entry).  In post_data_to_jde only a numerically zero quantity is skipped
(with an error entry in the result list) before payload building; string
zero forms pass through to the client.  In dispatch_single_batch_to_jde
every listed zero form yields an error result and nothing is sent. -/
theorem c7_zero_quantity_filter :
    (∀ (names : String → String) (lot vessel : String)
        (adds : List (String × Pipeline.Qty)),
      Pipeline.parse_bakery_system_additions names lot vessel adds =
        Pipeline.parse_bakery_system_additions names lot vessel
          (adds.filter (fun kv => ! Pipeline.isZeroOrNullQty kv.2))) ∧
    (∀ (t : Nat → Nat × String) (st : Pipeline.PostState) (item : Pipeline.Item),
      Pipeline.qtyEqZero (item.change_value.getD (Pipeline.Qty.num 0)) = true →
      (Pipeline.post_step t st item).sent = st.sent ∧
      ((Pipeline.post_step t st item).entries = st.entries ++
          [Pipeline.PEntry.processing item.unique_transaction_id,
           Pipeline.PEntry.already_done item.unique_transaction_id] ∨
       (Pipeline.post_step t st item).entries = st.entries ++
          [Pipeline.PEntry.processing item.unique_transaction_id,
           Pipeline.PEntry.empty_field (item.ingredient_name.getD "")])) ∧
    (∀ (b : Pipeline.Batch) (L : List Ledger.Row) (resp : Nat × String),
      Pipeline.isZeroOrNullQty b.quantity = true →
      (Pipeline.dispatch_single_batch_to_jde b L resp).sent = false ∧
      (Pipeline.dispatch_single_batch_to_jde b L resp).success = false) := by
  refine ⟨?_, ?_, ?_⟩
  · intro names lot vessel adds
    induction adds with
    | nil => rfl
    | cons kv rest ih =>
      by_cases hz : Pipeline.isZeroOrNullQty kv.2 = true
      · simp [Pipeline.parse_bakery_system_additions, List.filter_cons, hz] at ih ⊢
        exact ih
      · simp [Pipeline.parse_bakery_system_additions, List.filter_cons, hz] at ih ⊢
        exact ih
  · intro t st item h
    by_cases hdone : (match Ledger.statusOf st.ledger item.unique_transaction_id with
        | some s => s == "done"
        | Option.none => false) = true
    · constructor
      · simp [Pipeline.post_step, hdone]
      · left
        simp [Pipeline.post_step, hdone]
    · have hskip : (Pipeline.qtyEqZero (item.change_value.getD (Pipeline.Qty.num 0)) ||
          item.addition_unit.getD "" == "" || item.ingredient_name.getD "" == "") = true := by
        simp [h]
      constructor
      · simp [Pipeline.post_step, hdone, hskip]
      · right
        simp [Pipeline.post_step, hdone, hskip]
  · intro b L resp h
    constructor <;>
      (simp only [Pipeline.dispatch_single_batch_to_jde]
       split_ifs <;> simp_all)

/-- Witness for C7 (amended): the string "0.0" quantity is rejected by
dispatch_single_batch_to_jde without a post. -/
theorem c7_zero_quantity_filter_witness :
    Pipeline.isZeroOrNullQty Pipeline.zeroStringBatch.quantity = true ∧
    (Pipeline.dispatch_single_batch_to_jde Pipeline.zeroStringBatch [] (201, "ok")).sent = false :=
  ⟨by decide,
    (c7_zero_quantity_filter.2.2 Pipeline.zeroStringBatch [] (201, "ok") (by decide)).1⟩

/-- Helper: with a transport that always answers 200 with an empty JSON
list, retry_request maps the empty list to a failure. -/
theorem retry_request_always_empty (fuel : Nat) (t : Nat → Retry.RResult)
    (h : ∀ n, t n = .resp 200 (some (.list [])) "") :
    (Retry.retry_request fuel t).1 = Option.none := by
  cases fuel with
  | zero => rfl
  | succ f => simp [Retry.retry_request, Retry.retry_request_aux, h 0]

/-- Helper: after deleting a key, no fresh row for it can be found. -/
theorem delete_find_none (st : List Lru.CacheRow) (now : Int) (k : String) :
    (Lru.delete_from_lru_cache k st).find?
      (fun r => r.cache_key == k && decide (now - 3600 < r.timestamp)) = Option.none := by
  induction st with
  | nil => rfl
  | cons r rest ih =>
    by_cases hk : (r.cache_key == k) = true
    · simp only [Lru.delete_from_lru_cache, List.filter_cons, hk] at ih ⊢
      simpa using ih
    · simp only [Lru.delete_from_lru_cache, List.filter_cons] at ih ⊢
      simp only [hk]
      simp only [Bool.not_false, if_true]
      rw [List.find?]
      simp only [hk, Bool.false_and]
      exact ih

/-- Helper: a read that reports absent leaves a state in which the same
read still reports absent, and never adds rows. -/
theorem get_of_get_none (st : List Lru.CacheRow) (now : Int) (k : String)
    (h : (Lru.get_from_lru_cache st now k).1 = Option.none) :
    (Lru.get_from_lru_cache (Lru.get_from_lru_cache st now k).2 now k).1 = Option.none ∧
    ∀ r ∈ (Lru.get_from_lru_cache st now k).2, r ∈ st := by
  cases hf : st.find? (fun r => r.cache_key == k && decide (now - 3600 < r.timestamp)) with
  | none =>
    have hg : Lru.get_from_lru_cache st now k = (Option.none, st) := by
      simp [Lru.get_from_lru_cache, hf]
    rw [hg]
    exact ⟨h, fun r hr => hr⟩
  | some r =>
    rcases hresp : r.response with s | n | _ | kvs | items
    · exfalso; simp [Lru.get_from_lru_cache, hf, hresp] at h
    · exfalso; simp [Lru.get_from_lru_cache, hf, hresp] at h
    · exfalso; simp [Lru.get_from_lru_cache, hf, hresp] at h
    · exfalso; simp [Lru.get_from_lru_cache, hf, hresp] at h
    · cases items with
      | nil =>
        have hg : Lru.get_from_lru_cache st now k =
            (Option.none, Lru.delete_from_lru_cache k st) := by
          simp [Lru.get_from_lru_cache, hf, hresp]
        rw [hg]
        constructor
        · simp [Lru.get_from_lru_cache, delete_find_none]
        · intro x hx
          exact List.mem_of_mem_filter hx
      | cons a as =>
        exfalso; simp [Lru.get_from_lru_cache, hf, hresp] at h

/-- Helper: in a state whose only row for a key is `r`, the freshness
query finds exactly `r` when it is fresh. -/
theorem find?_unique_key (st : List Lru.CacheRow) (now : Int) (k : String) (r : Lru.CacheRow)
    (huniq : ∀ r' ∈ st, r'.cache_key = k → r' = r) (hmem : r ∈ st) (hk : r.cache_key = k)
    (hfresh : now - 3600 < r.timestamp) :
    st.find? (fun x => x.cache_key == k && decide (now - 3600 < x.timestamp)) = some r := by
  induction st with
  | nil => cases hmem
  | cons a rest ih =>
    by_cases ha : a.cache_key = k
    · have har : a = r := huniq a (by simp) ha
      subst har
      rw [List.find?]
      simp [ha, hfresh]
    · rw [List.find?]
      have : (a.cache_key == k) = false := by simp [ha]
      simp only [this, Bool.false_and]
      have hmem' : r ∈ rest := by
        rcases List.mem_cons.mp hmem with h1 | h1
        · exfalso; exact ha (h1 ▸ hk)
        · exact h1
      exact ih (fun r' hr' hkr' => huniq r' (by simp [hr']) hkr') hmem'

/-- Helper: find? over an appended singleton when nothing before matches. -/
theorem find?_append_last {α} (l : List α) (p : α → Bool) (a : α)
    (h : ∀ x ∈ l, p x = false) :
    (l ++ [a]).find? p = if p a then some a else Option.none := by
  induction l with
  | nil =>
    cases hpa : p a <;> simp [List.find?, hpa]
  | cons x xs ih =>
    have hx := h x (by simp)
    rw [List.cons_append, List.find?]
    simp only [hx]
    exact ih (fun y hy => h y (by simp [hy]))

/-- C9: a GET whose fresh response is the empty JSON list stores nothing:
afterwards a read of that cache key reports absent and the cache holds no
row it did not hold before; and independently, a read that finds a fresh
entry whose body is the empty list purges that entry as a side effect and
reports absent. -/
theorem c9_empty_response_not_cached :
    (∀ (fuel : Nat) (t : Nat → Retry.RResult) (k : String)
        (st : List Lru.CacheRow) (now : Int),
      (Lru.get_from_lru_cache st now k).1 = Option.none →
      (∀ n, t n = .resp 200 (some (.list [])) "") →
      (Lru.get_from_lru_cache (Lru.retry_request_lru_get fuel t k st now).2 now k).1 =
        Option.none ∧
      ∀ r ∈ (Lru.retry_request_lru_get fuel t k st now).2, r ∈ st) ∧
    (∀ (st : List Lru.CacheRow) (now : Int) (k : String) (r : Lru.CacheRow),
      (∀ r' ∈ st, r'.cache_key = k → r' = r) →
      r ∈ st → r.cache_key = k → now - 3600 < r.timestamp → r.response = .list [] →
      Lru.get_from_lru_cache st now k =
        (Option.none, Lru.delete_from_lru_cache k st)) := by
  constructor
  · intro fuel t k st now h1 h2
    have hfr : (Retry.retry_request fuel t).1 = Option.none :=
      retry_request_always_empty fuel t h2
    have hpair : Lru.get_from_lru_cache st now k =
        (Option.none, (Lru.get_from_lru_cache st now k).2) := by
      rw [← h1]
    have hwrap : Lru.retry_request_lru_get fuel t k st now =
        (Option.none, (Lru.get_from_lru_cache st now k).2) := by
      rw [Lru.retry_request_lru_get, hpair]
      simp only [Lru.lru_fresh_request, hfr]
    rw [hwrap]
    exact get_of_get_none st now k h1
  · intro st now k r huniq hmem hk hfresh hresp
    have hf := find?_unique_key st now k r huniq hmem hk hfresh
    simp [Lru.get_from_lru_cache, hf, hresp]

/-- Witness for C9 at a concrete stale-free state: an empty cache, an
always-empty transport, key "k", time 0. -/
theorem c9_empty_response_not_cached_witness :
    (Lru.get_from_lru_cache [] 0 "k").1 = Option.none ∧
    (∀ n : Nat, (fun _ : Nat => Retry.RResult.resp 200 (some (.list [])) "") n =
      Retry.RResult.resp 200 (some (.list [])) "") ∧
    (Lru.get_from_lru_cache
      (Lru.retry_request_lru_get 5 (fun _ => Retry.RResult.resp 200 (some (.list [])) "")
        "k" [] 0).2 0 "k").1 = Option.none :=
  ⟨rfl, fun _ => rfl,
    (c9_empty_response_not_cached.1 5 (fun _ => Retry.RResult.resp 200 (some (.list [])) "")
      "k" [] 0 rfl (fun _ => rfl)).1⟩

/-- C10 counterexample: storing the one-element list containing the empty
list persists the empty list itself, and the subsequent fresh get reports
absent — it returns neither the element nor the original list, so the
claim's "a subsequent fresh get(k) returns x" fails at x = []. -/
theorem c10_empty_singleton_counterexample :
    Lru.set_in_lru_cache "k" (.list [.list []]) 0 [] =
      [⟨"k", .list [], 0⟩] ∧
    (Lru.get_from_lru_cache (Lru.set_in_lru_cache "k" (.list [.list []]) 0 []) 0 "k").1 =
      Option.none := ⟨rfl, rfl⟩

/-- C10 (amended): the cache put rewrites single-element lists — storing
`[x]` under a previously unused key persists `x` itself, and a fresh get
then returns `x` for every `x` other than the empty list (an empty stored
body is purged on read and reported absent); the put-then-get round trip
never returns `[x]` itself; and a put on a key that already has a row —
fresh or stale — leaves the table entirely unchanged
(`ON CONFLICT DO NOTHING`). -/
theorem c10_put_normalizes_singletons :
    (∀ (k : String) (x : PyVal) (st : List Lru.CacheRow) (now : Int),
      (∀ r ∈ st, r.cache_key ≠ k) →
      Lru.set_in_lru_cache k (.list [x]) now st = st ++ [⟨k, x, now⟩]) ∧
    (∀ (k : String) (x : PyVal) (st : List Lru.CacheRow) (now : Int),
      (∀ r ∈ st, r.cache_key ≠ k) → x ≠ .list [] →
      (Lru.get_from_lru_cache (Lru.set_in_lru_cache k (.list [x]) now st) now k).1 =
        some x) ∧
    (∀ (k : String) (x : PyVal) (st : List Lru.CacheRow) (now : Int),
      (∀ r ∈ st, r.cache_key ≠ k) →
      (Lru.get_from_lru_cache (Lru.set_in_lru_cache k (.list [x]) now st) now k).1 ≠
        some (.list [x])) ∧
    (∀ (k : String) (v : PyVal) (now : Int) (st : List Lru.CacheRow) (r : Lru.CacheRow),
      r ∈ st → r.cache_key = k →
      Lru.set_in_lru_cache k v now st = st) := by
  have hset : ∀ (k : String) (x : PyVal) (st : List Lru.CacheRow) (now : Int),
      (∀ r ∈ st, r.cache_key ≠ k) →
      Lru.set_in_lru_cache k (.list [x]) now st = st ++ [⟨k, x, now⟩] := by
    intro k x st now h
    have hany : (st.any fun r => r.cache_key == k) = false := by
      simp only [List.any_eq_false]
      intro r hr
      simpa using h r hr
    simp [Lru.set_in_lru_cache, hany]
  have hget : ∀ (k : String) (x : PyVal) (st : List Lru.CacheRow) (now : Int),
      (∀ r ∈ st, r.cache_key ≠ k) →
      (Lru.get_from_lru_cache (Lru.set_in_lru_cache k (.list [x]) now st) now k).1 =
        if x = .list [] then Option.none else some x := by
    intro k x st now h
    rw [hset k x st now h]
    have hfind : (st ++ [(⟨k, x, now⟩ : Lru.CacheRow)]).find?
        (fun r => r.cache_key == k && decide (now - 3600 < r.timestamp)) =
          some ⟨k, x, now⟩ := by
      rw [find?_append_last]
      · have : now - 3600 < now := by omega
        simp [this]
      · intro r hr
        simp [h r hr]
    rcases hx : x with s | n | _ | kvs | items
    · subst hx
      simp only [Lru.get_from_lru_cache, hfind]
      simp
    · subst hx
      simp only [Lru.get_from_lru_cache, hfind]
      simp
    · subst hx
      simp only [Lru.get_from_lru_cache, hfind]
      simp
    · subst hx
      simp only [Lru.get_from_lru_cache, hfind]
      simp
    · subst hx
      cases items with
      | nil =>
        simp only [Lru.get_from_lru_cache, hfind]
        simp
      | cons a as =>
        simp only [Lru.get_from_lru_cache, hfind]
        simp
  refine ⟨hset, ?_, ?_, ?_⟩
  · intro k x st now h hx
    rw [hget k x st now h, if_neg hx]
  · intro k x st now h
    rw [hget k x st now h]
    by_cases hx : x = .list []
    · simp [hx]
    · rw [if_neg hx]
      intro hcontra
      have : x = .list [x] := Option.some.inj hcontra
      have hsize : sizeOf x < sizeOf (PyVal.list [x]) := by
        simp
        omega
      rw [← this] at hsize
      omega
  · intro k v now st r hmem hk
    have hany : (st.any fun r => r.cache_key == k) = true := by
      rw [List.any_eq_true]
      exact ⟨r, hmem, by simp [hk]⟩
    simp [Lru.set_in_lru_cache, hany]

/-- Witness for C10 (amended): storing `[7]` under a fresh key and reading
it back yields 7. -/
theorem c10_put_normalizes_singletons_witness :
    (∀ r ∈ ([] : List Lru.CacheRow), r.cache_key ≠ "k") ∧
    (PyVal.int 7 ≠ PyVal.list []) ∧
    (Lru.get_from_lru_cache (Lru.set_in_lru_cache "k" (.list [.int 7]) 0 []) 0 "k").1 =
      some (.int 7) :=
  ⟨by simp, by simp, c10_put_normalizes_singletons.2.1 "k" (.int 7) [] 0 (by simp) (by simp)⟩

namespace CacheKey

/-- Keyed insertion permutes the element into the list. -/
theorem insertByKey_perm {α : Type} (a : String × α) (l : List (String × α)) :
    (insertByKey a l).Perm (a :: l) := by
  induction l with
  | nil => exact List.Perm.refl _
  | cons b r ih =>
    rw [insertByKey]
    by_cases h : a.1 ≤ b.1
    · rw [if_pos h]
    · rw [if_neg h]
      exact (ih.cons b).trans (List.Perm.swap a b r)

/-- The key sort is a permutation. -/
theorem sortByKey_perm {α : Type} (l : List (String × α)) :
    (sortByKey l).Perm l := by
  induction l with
  | nil => exact List.Perm.refl _
  | cons a r ih =>
    rw [sortByKey]
    exact (insertByKey_perm a (sortByKey r)).trans (ih.cons a)

/-- Keyed insertion preserves key-sortedness. -/
theorem insertByKey_sorted {α : Type} (a : String × α) (l : List (String × α))
    (h : l.Pairwise (fun x y => x.1 ≤ y.1)) :
    (insertByKey a l).Pairwise (fun x y => x.1 ≤ y.1) := by
  induction l with
  | nil => simp [insertByKey]
  | cons b r ih =>
    rw [insertByKey]
    by_cases hab : a.1 ≤ b.1
    · rw [if_pos hab]
      refine List.Pairwise.cons ?_ h
      intro y hy
      rcases List.mem_cons.mp hy with h1 | h1
      · subst h1; exact hab
      · exact le_trans hab ((List.pairwise_cons.mp h).1 y h1)
    · rw [if_neg hab]
      have hba : b.1 ≤ a.1 := le_of_not_le hab
      obtain ⟨hb, hr⟩ := List.pairwise_cons.mp h
      refine List.Pairwise.cons ?_ (ih hr)
      intro y hy
      have := (insertByKey_perm a r).mem_iff.mp hy
      rcases List.mem_cons.mp this with h1 | h1
      · subst h1; exact hba
      · exact hb y h1

/-- The key sort produces a key-sorted list. -/
theorem sortByKey_sorted {α : Type} (l : List (String × α)) :
    (sortByKey l).Pairwise (fun x y => x.1 ≤ y.1) := by
  induction l with
  | nil => simp [sortByKey]
  | cons a r ih =>
    rw [sortByKey]
    exact insertByKey_sorted a (sortByKey r) ih

/-- Two permuted key-value lists with distinct keys sort identically. -/
theorem sortByKey_eq_of_perm {α : Type} (l1 l2 : List (String × α))
    (hp : l1.Perm l2) (hn : (l1.map Prod.fst).Nodup) :
    sortByKey l1 = sortByKey l2 := by
  have hps : (sortByKey l1).Perm (sortByKey l2) :=
    ((sortByKey_perm l1).trans hp).trans (sortByKey_perm l2).symm
  have hn1 : ((sortByKey l1).map Prod.fst).Nodup :=
    (((sortByKey_perm l1).map Prod.fst).nodup_iff).mpr hn
  have hn2 : ((sortByKey l2).map Prod.fst).Nodup :=
    ((hps.map Prod.fst).nodup_iff).mp hn1
  have hlt1 : (sortByKey l1).Pairwise (fun x y => x.1 < y.1) := by
    have hne : (sortByKey l1).Pairwise (fun x y => x.1 ≠ y.1) :=
      (List.pairwise_map).mp hn1
    exact ((sortByKey_sorted l1).and hne).imp (fun h => lt_of_le_of_ne h.1 h.2)
  have hlt2 : (sortByKey l2).Pairwise (fun x y => x.1 < y.1) := by
    have hne : (sortByKey l2).Pairwise (fun x y => x.1 ≠ y.1) :=
      (List.pairwise_map).mp hn2
    exact ((sortByKey_sorted l2).and hne).imp (fun h => lt_of_le_of_ne h.1 h.2)
  haveI : IsAntisymm (String × α) (fun x y => x.1 < y.1) :=
    ⟨fun a b h1 h2 => absurd h2 (lt_asymm h1)⟩
  exact List.eq_of_perm_of_sorted hps hlt1 hlt2



/-- normKvs is the map that normalizes each value. -/
theorem normKvs_eq_map (l : List (String × PyVal)) :
    normKvs l = l.map (fun kv => (kv.1, normalize_dict kv.2)) := by
  induction l with
  | nil => rfl
  | cons kv r ih => rw [show kv = (kv.1, kv.2) from rfl, normKvs, ih]; rfl

/-- The Boolean key-distinctness check means the keys are nodup. -/
theorem nodupKeysb_iff (l : List (String × PyVal)) :
    nodupKeysb l = true ↔ (l.map Prod.fst).Nodup := by
  induction l with
  | nil => simp [nodupKeysb]
  | cons kv r ih =>
    rw [show kv = (kv.1, kv.2) from rfl, nodupKeysb]
    simp only [List.map_cons, List.nodup_cons, Bool.and_eq_true, Bool.not_eq_true',
      List.any_eq_false, ← ih]
    constructor
    · rintro ⟨h1, h2⟩
      refine ⟨?_, h2⟩
      intro hmem
      rcases List.mem_map.mp hmem with ⟨kv', hkv', hfst⟩
      have := h1 kv' hkv'
      simp [hfst] at this
    · rintro ⟨h1, h2⟩
      refine ⟨?_, h2⟩
      intro kv' hkv'
      by_contra hc
      simp only [Bool.not_eq_false, beq_iff_eq] at hc
      exact h1 (List.mem_map.mpr ⟨kv', hkv', hc⟩)

/-- A successful lookup is a membership. -/
theorem lookupKV_mem (l : List (String × PyVal)) (k : String) (v : PyVal)
    (h : lookupKV l k = some v) : (k, v) ∈ l := by
  induction l with
  | nil => simp [lookupKV] at h
  | cons kv r ih =>
    rw [lookupKV, List.find?] at h
    by_cases hk : (kv.1 == k) = true
    · simp only [hk] at h
      have hkk : kv.1 = k := by simpa using hk
      have hv : kv.2 = v := Option.some.inj h
      have hkv : kv = (k, v) := by
        rw [show kv = (kv.1, kv.2) from rfl, hkk, hv]
      exact List.mem_cons.mpr (Or.inl hkv.symm)
    · simp only [hk] at h
      right
      apply ih
      rw [lookupKV]
      exact h

/-- With distinct keys, membership determines the lookup. -/
theorem mem_lookupKV (l : List (String × PyVal)) (k : String) (v : PyVal)
    (hn : (l.map Prod.fst).Nodup) (h : (k, v) ∈ l) : lookupKV l k = some v := by
  induction l with
  | nil => simp at h
  | cons kv r ih =>
    rw [List.map_cons, List.nodup_cons] at hn
    rw [lookupKV, List.find?]
    rcases List.mem_cons.mp h with h1 | h1
    · rw [← h1]
      simp
    · have hne : (kv.1 == k) = false := by
        simp only [beq_eq_false_iff_ne, ne_eq]
        intro hc
        exact hn.1 (List.mem_map.mpr ⟨(k, v), h1, hc.symm ▸ rfl⟩)
      simp only [hne]
      rw [← lookupKV]
      exact ih hn.2 h1

/-- Unfolding mapEqKvs into its per-pair condition. -/
theorem mapEqKvs_forall (l1 l2 : List (String × PyVal)) (h : mapEqKvs l1 l2 = true) :
    ∀ kv ∈ l1, ∃ v', lookupKV l2 kv.1 = some v' ∧ mapEqb kv.2 v' = true := by
  induction l1 with
  | nil => simp
  | cons kv r ih =>
    rw [show kv = (kv.1, kv.2) from rfl, mapEqKvs, Bool.and_eq_true] at h
    intro kv' hkv'
    rcases List.mem_cons.mp hkv' with h1 | h1
    · subst h1
      cases hl : lookupKV l2 kv'.1 with
      | none => rw [hl] at h; simp at h
      | some v' =>
        rw [hl] at h
        exact ⟨v', rfl, h.1⟩
    · exact ih h.2 kv' h1



/-- The central normalization property behind C8: values that are equal
as maps at every nesting depth normalize to the same canonical value. -/
theorem mapEqb_normalize : ∀ v1 v2 : PyVal, mapEqb v1 v2 = true →
    normalize_dict v1 = normalize_dict v2 := by
  suffices main : ∀ n : Nat,
      (∀ v1 v2 : PyVal, sizeOf v1 ≤ n → mapEqb v1 v2 = true →
        normalize_dict v1 = normalize_dict v2) ∧
      (∀ l1 l2 : List PyVal, sizeOf l1 ≤ n → mapEqList l1 l2 = true →
        normList l1 = normList l2) by
    intro v1 v2 h
    exact (main (sizeOf v1)).1 v1 v2 le_rfl h
  intro n
  induction n with
  | zero =>
    constructor
    · intro v1 v2 h; cases v1 <;> simp at h
    · intro l1 l2 h; cases l1 <;> simp at h
  | succ n ih =>
    obtain ⟨ihV, ihL⟩ := ih
    constructor
    · intro v1 v2 hsz h
      cases v1 <;> cases v2 <;> simp only [mapEqb, Bool.false_eq_true] at h
      case str.str a b =>
        have : a = b := by simpa using h
        rw [this]
      case int.int a b =>
        have : a = b := by simpa using h
        rw [this]
      case null.null => rfl
      case list.list a b =>
        have ha : sizeOf a ≤ n := by simp at hsz; omega
        simp only [normalize_dict]
        rw [ihL a b ha h]
      case dict.dict l1 l2 =>
        simp only [Bool.and_eq_true, beq_iff_eq] at h
        obtain ⟨⟨⟨hn1, hn2⟩, hlen⟩, hkvs⟩ := h
        have hszl : sizeOf l1 ≤ n := by simp at hsz; omega
        simp only [normalize_dict]
        congr 1
        have hkeys1 : ((normKvs l1).map Prod.fst) = l1.map Prod.fst := by
          rw [normKvs_eq_map, List.map_map]
          rfl
        have hkeys2 : ((normKvs l2).map Prod.fst) = l2.map Prod.fst := by
          rw [normKvs_eq_map, List.map_map]
          rfl
        have hnodup1 : ((normKvs l1).map Prod.fst).Nodup := by
          rw [hkeys1]; exact (nodupKeysb_iff l1).mp hn1
        have hnodup2 : ((normKvs l2).map Prod.fst).Nodup := by
          rw [hkeys2]; exact (nodupKeysb_iff l2).mp hn2
        have hsub : normKvs l1 ⊆ normKvs l2 := by
          intro x hx
          rw [normKvs_eq_map] at hx
          rcases List.mem_map.mp hx with ⟨kv, hkv, hxe⟩
          obtain ⟨k0, v0⟩ := kv
          obtain ⟨v', hlook, heq⟩ := mapEqKvs_forall l1 l2 hkvs (k0, v0) hkv
          have hvsz : sizeOf v0 ≤ n := by
            have h1 := List.sizeOf_lt_of_mem hkv
            have h2 : sizeOf ((k0, v0) : String × PyVal) = 1 + sizeOf k0 + sizeOf v0 := by
              simp
            omega
          have hnorm : normalize_dict v0 = normalize_dict v' := ihV v0 v' hvsz heq
          have hmem2 : (k0, v') ∈ l2 := lookupKV_mem l2 k0 v' hlook
          rw [normKvs_eq_map]
          rw [← hxe]
          refine List.mem_map.mpr ⟨(k0, v'), hmem2, ?_⟩
          simp [hnorm]
        have hlen' : (normKvs l2).length ≤ (normKvs l1).length := by
          rw [normKvs_eq_map, normKvs_eq_map, List.length_map, List.length_map, hlen]
        have hperm : (normKvs l1).Perm (normKvs l2) := by
          have hnd : (normKvs l1).Nodup := hnodup1.of_map
          exact (hnd.subperm hsub).perm_of_length_le hlen'
        exact sortByKey_eq_of_perm _ _ hperm hnodup1
    · intro l1 l2 hsz h
      cases l1 with
      | nil => cases l2 with
        | nil => rfl
        | cons b bs => simp [mapEqList] at h
      | cons a as =>
        cases l2 with
        | nil => simp [mapEqList] at h
        | cons b bs =>
          rw [mapEqList, Bool.and_eq_true] at h
          have ha : sizeOf a ≤ n := by simp at hsz; omega
          have has : sizeOf as ≤ n := by simp at hsz; omega
          rw [normList, normList, ihV a b ha h.1, ihL as bs has h.2]



/-- Lookup after a single dictionary assignment. -/
theorem lookup_setKey (l : List (String × PyVal)) (k : String) (v : PyVal) (k' : String) :
    lookupKV (setKey l k v) k' = if k' = k then some v else lookupKV l k' := by
  induction l with
  | nil =>
    rw [setKey]
    by_cases h : k' = k
    · subst h; simp [lookupKV, List.find?]
    · have hb : (k == k') = false := by
        simp only [beq_eq_false_iff_ne, ne_eq]
        intro hc; exact h hc.symm
      rw [if_neg h]
      simp [lookupKV, List.find?, hb]
  | cons kv r ih =>
    obtain ⟨k0, v0⟩ := kv
    rw [setKey]
    by_cases h0 : (k0 == k) = true
    · have hk0 : k0 = k := by simpa using h0
      rw [if_pos h0]
      by_cases h : k' = k
      · rw [if_pos h]
        have hb : (k == k') = true := by rw [h]; simp
        simp [lookupKV, List.find?, hb]
      · rw [if_neg h]
        have hb : (k == k') = false := by
          simp only [beq_eq_false_iff_ne, ne_eq]
          intro hc; exact h hc.symm
        have hb0 : (k0 == k') = false := by rw [hk0]; exact hb
        simp only [lookupKV, List.find?, hb, hb0]
    · have hk0 : ¬ k0 = k := by simpa using h0
      rw [if_neg h0]
      by_cases h3 : (k0 == k') = true
      · have hk' : k0 = k' := by simpa using h3
        have hne : ¬ k' = k := fun hc => hk0 (hk'.trans hc)
        rw [if_neg hne]
        simp [lookupKV, List.find?, h3]
      · have hb3 : (k0 == k') = false := by simpa using h3
        by_cases h : k' = k
        · rw [if_pos h]
          simp only [lookupKV, List.find?, hb3]
          rw [← lookupKV, ih, if_pos h]
        · rw [if_neg h]
          simp only [lookupKV, List.find?, hb3]
          rw [← lookupKV, ih, if_neg h, lookupKV]

/-- Keys after a single dictionary assignment. -/
theorem keys_setKey (l : List (String × PyVal)) (k : String) (v : PyVal) :
    (setKey l k v).map Prod.fst =
      if k ∈ l.map Prod.fst then l.map Prod.fst else l.map Prod.fst ++ [k] := by
  induction l with
  | nil => simp [setKey]
  | cons kv r ih =>
    obtain ⟨k0, v0⟩ := kv
    rw [setKey]
    by_cases h0 : (k0 == k) = true
    · have hk0 : k0 = k := by simpa using h0
      rw [if_pos h0]
      simp [hk0]
    · have hk0 : ¬ k0 = k := by simpa using h0
      rw [if_neg h0]
      simp only [List.map_cons, ih]
      by_cases hmem : k ∈ r.map Prod.fst
      · rw [if_pos hmem, if_pos (by simp [hmem])]
      · have hnotc : k ∉ (k0 :: r.map Prod.fst) := by
          intro hc
          rcases List.mem_cons.mp hc with h1 | h1
          · exact hk0 h1.symm
          · exact hmem h1
        rw [if_neg hmem, if_neg hnotc, List.cons_append]

/-- A lookup misses exactly when the key is absent. -/
theorem lookupKV_eq_none_iff (l : List (String × PyVal)) (k : String) :
    lookupKV l k = Option.none ↔ k ∉ l.map Prod.fst := by
  induction l with
  | nil => simp [lookupKV, List.find?]
  | cons kv r ih =>
    obtain ⟨k0, v0⟩ := kv
    by_cases h0 : (k0 == k) = true
    · have hk0 : k0 = k := by simpa using h0
      simp [lookupKV, List.find?, h0, hk0]
    · have hk0 : ¬ k0 = k := by simpa using h0
      simp only [lookupKV, List.find?, h0]
      rw [← lookupKV]
      simp only [List.map_cons, List.mem_cons, ih]
      constructor
      · intro h1 h2
        rcases h2 with h2 | h2
        · exact hk0 h2.symm
        · exact h1 h2
      · intro h1 h2
        exact h1 (Or.inr h2)

/-- Lookup in `base.update(ps)`: the update wins where it binds the key. -/
theorem lookup_dictUpdate (base ps : List (String × PyVal)) (k : String)
    (hn : (ps.map Prod.fst).Nodup) :
    lookupKV (dictUpdate base ps) k =
      match lookupKV ps k with
      | some v => some v
      | Option.none => lookupKV base k := by
  induction ps generalizing base with
  | nil => simp [dictUpdate, lookupKV, List.find?]
  | cons kv ps' ih =>
    obtain ⟨k0, v0⟩ := kv
    rw [List.map_cons, List.nodup_cons] at hn
    have hstep : dictUpdate base ((k0, v0) :: ps') = dictUpdate (setKey base k0 v0) ps' := rfl
    rw [hstep, ih (setKey base k0 v0) hn.2]
    by_cases h : k = k0
    · subst h
      have hnone : lookupKV ps' k = Option.none := by
        rw [lookupKV_eq_none_iff]
        exact hn.1
      rw [hnone]
      have : lookupKV ((k, v0) :: ps') k = some v0 := by simp [lookupKV, List.find?]
      rw [this, lookup_setKey, if_pos rfl]
    · have hhead : lookupKV ((k0, v0) :: ps') k =  lookupKV ps' k := by
        have : (k0 == k) = false := by simp; intro hc; exact h hc.symm
        simp [lookupKV, List.find?, this]
      rw [hhead]
      cases hl : lookupKV ps' k with
      | some w => rfl
      | none =>
        rw [lookup_setKey, if_neg h]



/-- Keys of `base.update(ps)`: the base keys in base order followed by the
new keys of the update in update order. -/
theorem keys_dictUpdate (base ps : List (String × PyVal))
    (hn : (ps.map Prod.fst).Nodup) :
    (dictUpdate base ps).map Prod.fst =
      base.map Prod.fst ++
        (ps.filter (fun kv => !(decide (kv.1 ∈ base.map Prod.fst)))).map Prod.fst := by
  induction ps generalizing base with
  | nil => simp [dictUpdate]
  | cons kv ps' ih =>
    obtain ⟨k0, v0⟩ := kv
    rw [List.map_cons, List.nodup_cons] at hn
    have hstep : dictUpdate base ((k0, v0) :: ps') = dictUpdate (setKey base k0 v0) ps' := rfl
    rw [hstep, ih _ hn.2]
    simp only [keys_setKey]
    by_cases hmem : k0 ∈ base.map Prod.fst
    · simp only [hmem, if_true, List.filter_cons]
      have hpred : (!(decide (k0 ∈ base.map Prod.fst))) = false := by simp [hmem]
      simp [hpred]
    · simp only [hmem, if_false, List.filter_cons]
      have hpred : (!(decide (k0 ∈ base.map Prod.fst))) = true := by simp [hmem]
      simp only [hpred, if_true, List.map_cons, List.append_assoc, List.singleton_append]
      congr 1
      congr 1
      refine congrArg (List.map Prod.fst) (List.filter_congr ?_)
      intro a ha
      have hne : a.1 ≠ k0 := by
        intro hc
        exact hn.1 (List.mem_map.mpr ⟨a, ha, hc⟩)
      simp [List.mem_append, hne]

/-- Updating preserves key distinctness. -/
theorem nodup_keys_dictUpdate (base ps : List (String × PyVal))
    (hb : (base.map Prod.fst).Nodup) (hn : (ps.map Prod.fst).Nodup) :
    ((dictUpdate base ps).map Prod.fst).Nodup := by
  rw [keys_dictUpdate _ _ hn]
  refine List.Nodup.append ?_ ?_ ?_
  · exact hb
  · exact hn.sublist ((List.filter_sublist ps).map Prod.fst)
  · intro a ha hc
    rcases List.mem_map.mp hc with ⟨kv, hkv, hfst⟩
    have := (List.mem_filter.mp hkv).2
    simp only [Bool.not_eq_true', decide_eq_false_iff_not] at this
    exact this (hfst ▸ ha)



/-- Folding the per-pair condition back into mapEqKvs. -/
theorem mapEqKvs_of_forall (l1 l2 : List (String × PyVal))
    (h : ∀ kv ∈ l1, ∃ v', lookupKV l2 kv.1 = some v' ∧ mapEqb kv.2 v' = true) :
    mapEqKvs l1 l2 = true := by
  induction l1 with
  | nil => rfl
  | cons kv r ih =>
    obtain ⟨k0, v0⟩ := kv
    rw [mapEqKvs]
    obtain ⟨v', hl, he⟩ := h (k0, v0) (by simp)
    rw [hl]
    simp only [he, Bool.true_and]
    exact ih (fun kv hkv => h kv (List.mem_cons.mpr (Or.inr hkv)))

/-- Map-equal dictionaries have permuted key lists. -/
theorem keysPerm_of_mapEq (p1 p2 : List (String × PyVal))
    (h : mapEqb (.dict p1) (.dict p2) = true) :
    (p1.map Prod.fst).Perm (p2.map Prod.fst) := by
  simp only [mapEqb, Bool.and_eq_true, beq_iff_eq] at h
  obtain ⟨⟨⟨hn1, hn2⟩, hlen⟩, hkvs⟩ := h
  have hnodup1 := (nodupKeysb_iff p1).mp hn1
  have hsub : p1.map Prod.fst ⊆ p2.map Prod.fst := by
    intro k hk
    rcases List.mem_map.mp hk with ⟨kv, hkv, hfst⟩
    obtain ⟨v', hlook, _⟩ := mapEqKvs_forall p1 p2 hkvs kv hkv
    have := lookupKV_mem p2 kv.1 v' hlook
    exact hfst ▸ List.mem_map.mpr ⟨(kv.1, v'), this, rfl⟩
  have hlen' : (p2.map Prod.fst).length ≤ (p1.map Prod.fst).length := by
    simp [hlen]
  exact (hnodup1.subperm hsub).perm_of_length_le hlen'

/-- A key filter over pairs has the length of the key filter over keys. -/
theorem filter_keys_length (base p : List (String × PyVal)) :
    (p.filter (fun kv => !(decide (kv.1 ∈ base.map Prod.fst)))).length =
      ((p.map Prod.fst).filter
        (fun k => !(decide (k ∈ base.map Prod.fst)))).length := by
  induction p with
  | nil => rfl
  | cons kv r ih =>
    rw [List.map_cons, List.filter_cons, List.filter_cons]
    cases hp : (!(decide (kv.1 ∈ base.map Prod.fst))) <;> simp [hp, ih]

/-- Updating the same base dictionary with two map-equal parameter
dictionaries yields map-equal results, provided the base has distinct keys
and self-map-equal values (true of parsed query parameters). -/
theorem mapEq_dictUpdate (base p1 p2 : List (String × PyVal))
    (hb : (base.map Prod.fst).Nodup)
    (hbr : ∀ kv ∈ base, mapEqb kv.2 kv.2 = true)
    (h : mapEqb (.dict p1) (.dict p2) = true) :
    mapEqb (.dict (dictUpdate base p1)) (.dict (dictUpdate base p2)) = true := by
  have hkp := keysPerm_of_mapEq p1 p2 h
  simp only [mapEqb, Bool.and_eq_true, beq_iff_eq] at h ⊢
  obtain ⟨⟨⟨hn1, hn2⟩, hlen⟩, hkvs⟩ := h
  have hnd1 := (nodupKeysb_iff p1).mp hn1
  have hnd2 := (nodupKeysb_iff p2).mp hn2
  have hu1 : ((dictUpdate base p1).map Prod.fst).Nodup :=
    nodup_keys_dictUpdate base p1 hb hnd1
  have hu2 : ((dictUpdate base p2).map Prod.fst).Nodup :=
    nodup_keys_dictUpdate base p2 hb hnd2
  refine ⟨⟨⟨(nodupKeysb_iff _).mpr hu1, (nodupKeysb_iff _).mpr hu2⟩, ?_⟩, ?_⟩
  · have e1 : (dictUpdate base p1).length = ((dictUpdate base p1).map Prod.fst).length :=
      (List.length_map _ _).symm
    have e2 : (dictUpdate base p2).length = ((dictUpdate base p2).map Prod.fst).length :=
      (List.length_map _ _).symm
    rw [e1, e2, keys_dictUpdate base p1 hnd1, keys_dictUpdate base p2 hnd2]
    simp only [List.length_append, List.length_map, filter_keys_length]
    rw [(hkp.filter (fun k => !(decide (k ∈ base.map Prod.fst)))).length_eq]
  · apply mapEqKvs_of_forall
    intro kv hkv
    obtain ⟨k0, v0⟩ := kv
    have hlu1 : lookupKV (dictUpdate base p1) k0 = some v0 := mem_lookupKV _ _ _ hu1 hkv
    rw [lookup_dictUpdate base p1 k0 hnd1] at hlu1
    rw [lookup_dictUpdate base p2 k0 hnd2]
    cases hp1 : lookupKV p1 k0 with
    | some w =>
      rw [hp1] at hlu1
      have hw : w = v0 := Option.some.inj hlu1
      have hmem1 : (k0, w) ∈ p1 := lookupKV_mem p1 k0 w hp1
      obtain ⟨w', hl2, he⟩ := mapEqKvs_forall p1 p2 hkvs (k0, w) hmem1
      rw [hl2]
      exact ⟨w', rfl, hw ▸ he⟩
    | none =>
      rw [hp1] at hlu1
      have hp2 : lookupKV p2 k0 = Option.none := by
        rw [lookupKV_eq_none_iff] at hp1 ⊢
        intro hc
        exact hp1 (hkp.mem_iff.mpr hc)
      rw [hp2]
      have hmemb := lookupKV_mem base k0 v0 hlu1
      exact ⟨v0, hlu1, hbr (k0, v0) hmemb⟩



/-- First-occurrence deduplication yields distinct elements. -/
theorem firstDedup_nodup (l : List String) : (firstDedup l).Nodup := by
  induction l with
  | nil => simp [firstDedup]
  | cons k r ih =>
    rw [firstDedup]
    refine List.nodup_cons.mpr ⟨?_, ?_⟩
    · intro hc
      have := (List.mem_filter.mp hc).2
      simp at this
    · exact ih.filter _

/-- The keys of the flattened URL parameters, deduplicated in order. -/
theorem url_params_keys (url : String) :
    (url_params_flat url).map Prod.fst =
      firstDedup ((qsPairs (urlSplit url).2).map Prod.fst) := by
  unfold url_params_flat parse_qs
  rw [List.map_map, List.map_map]
  exact List.map_id _

/-- Flattened URL parameters have distinct keys. -/
theorem url_params_keys_nodup (url : String) :
    ((url_params_flat url).map Prod.fst).Nodup := by
  rw [url_params_keys]
  exact firstDedup_nodup _

/-- String lists are map-equal to themselves. -/
theorem mapEqList_str_refl (vs : List String) :
    mapEqList (vs.map PyVal.str) (vs.map PyVal.str) = true := by
  induction vs with
  | nil => rfl
  | cons v r ih =>
    rw [List.map_cons, mapEqList, Bool.and_eq_true]
    exact ⟨by simp [mapEqb], ih⟩

/-- Flattened URL parameter values are map-equal to themselves. -/
theorem url_params_values_refl (url : String) :
    ∀ kv ∈ url_params_flat url, mapEqb kv.2 kv.2 = true := by
  intro kv hkv
  unfold url_params_flat at hkv
  rcases List.mem_map.mp hkv with ⟨kg, _, hkg⟩
  rw [← hkg]
  rcases kg.2 with _ | ⟨v, _ | ⟨w, r⟩⟩
  · exact mapEqList_str_refl []
  · simp [mapEqb]
  · exact mapEqList_str_refl (v :: w :: r)

end CacheKey

/-- C8: the cache key derivation is invariant under map-key ordering: for
every URL, payload, and pair of query-parameter dictionaries that are
equal as maps (same key-value pairs at every nesting depth, in any
insertion order), _create_cache_key returns the identical key string. -/
theorem c8_cache_key_order_invariant (url : String) (p1 p2 payload : List (String × PyVal))
    (h : CacheKey.mapEqb (.dict p1) (.dict p2) = true) :
    CacheKey.create_cache_key url p1 payload = CacheKey.create_cache_key url p2 payload := by
  have hlen : p1.length = p2.length := by
    simp only [CacheKey.mapEqb, Bool.and_eq_true, beq_iff_eq] at h
    exact h.1.2
  by_cases hp : p1 = []
  · have hp2 : p2 = [] := by
      rw [hp] at hlen
      exact List.length_eq_zero.mp hlen.symm
    rw [hp, hp2]
  · have hp2 : p2 ≠ [] := by
      intro hc
      rw [hc] at hlen
      exact hp (List.length_eq_zero.mp hlen)
    have hu := CacheKey.mapEq_dictUpdate (CacheKey.url_params_flat url) p1 p2
      (CacheKey.url_params_keys_nodup url) (CacheKey.url_params_values_refl url) h
    have hnorm := CacheKey.mapEqb_normalize _ _ hu
    have hulen : (CacheKey.dictUpdate (CacheKey.url_params_flat url) p1).length =
        (CacheKey.dictUpdate (CacheKey.url_params_flat url) p2).length := by
      simp only [CacheKey.mapEqb, Bool.and_eq_true, beq_iff_eq] at hu
      exact hu.1.2
    have expand : ∀ (p : List (String × PyVal)), p ≠ [] →
        CacheKey.create_cache_key url p payload =
          CacheKey.sha256hex ((CacheKey.urlSplit url).1 ++ "||" ++
            CacheKey.dumps (if CacheKey.dictUpdate (CacheKey.url_params_flat url) p ≠ [] then
              CacheKey.normalize_dict (.dict (CacheKey.dictUpdate (CacheKey.url_params_flat url) p))
            else CacheKey.NVal.dict []) ++
            "||" ++
            CacheKey.dumps (if payload ≠ [] then CacheKey.normalize_dict (.dict payload)
              else CacheKey.NVal.dict [])) := by
      intro p hpne
      simp only [CacheKey.create_cache_key]
      rw [if_pos hpne]
    rw [expand p1 hp, expand p2 hp2]
    by_cases hue : CacheKey.dictUpdate (CacheKey.url_params_flat url) p1 = []
    · have hue2 : CacheKey.dictUpdate (CacheKey.url_params_flat url) p2 = [] := by
        apply List.length_eq_zero.mp
        rw [← hulen, hue]
        rfl
      rw [if_neg (not_not_intro hue), if_neg (not_not_intro hue2)]
    · have hue2 : CacheKey.dictUpdate (CacheKey.url_params_flat url) p2 ≠ [] := by
        intro hc
        apply hue
        apply List.length_eq_zero.mp
        rw [hulen, hc]
        rfl
      rw [if_pos hue, if_pos hue2, hnorm]

/-- Witness for C8 at the spec's own test instance: parameter maps
a:1,b:2 and b:2,a:1 yield the same key. -/
theorem c8_cache_key_order_invariant_witness :
    CacheKey.mapEqb (.dict [("a", .int 1), ("b", .int 2)])
      (.dict [("b", .int 2), ("a", .int 1)]) = true ∧
    CacheKey.create_cache_key "http://h/api/x?q=1" [("a", .int 1), ("b", .int 2)] [] =
      CacheKey.create_cache_key "http://h/api/x?q=1" [("b", .int 2), ("a", .int 1)] [] :=
  ⟨by decide,
    c8_cache_key_order_invariant "http://h/api/x?q=1" [("a", .int 1), ("b", .int 2)]
      [("b", .int 2), ("a", .int 1)] [] (by decide)⟩

end JdeToDatalake
